import Mathlib

/-!
# Verification of the conductor catalog core

A shallow embedding of the `catalog` and `score` crates of the
orchestack/conductor repository: the catalog data model
(`src/catalog/src/lib.rs`), the edit type (`src/catalog/src/edit.rs`),
the structural diff engine (`src/catalog/src/diff.rs`), the score
compiler (`src/score/src/compiler.rs`) and the score parser
(`src/score/src/parser.rs`), together with proofs about them.

Rust `HashMap<String, V>` values are embedded as association lists
`List (String × V)`; the list order models the (hash-dependent)
iteration order of the map and set values built from it.  `Option` is
used where the Rust code can panic (`unwrap`, `todo!`, `unreachable!`,
failed `assert`): `none` models a panic.
-/

set_option autoImplicit false

namespace Conductor

/-- First-match lookup in an association list, the model of
`HashMap::get`. -/
def mapGet {α : Type} (m : List (String × α)) (k : String) : Option α :=
  match m with
  | [] => none
  | (k', v) :: t => if k' = k then some v else mapGet t k

/-- Insertion into an association list, the model of `HashMap::insert`:
an existing entry for the key is replaced in place, otherwise the entry
is appended. -/
def mapInsert {α : Type} (m : List (String × α)) (k : String) (v : α) :
    List (String × α) :=
  match m with
  | [] => [(k, v)]
  | (k', v') :: t => if k' = k then (k, v) :: t else (k', v') :: mapInsert t k v

/-- Removal from an association list, the model of `HashMap::remove`:
the first entry for the key is removed. -/
def mapRemove {α : Type} (m : List (String × α)) (k : String) :
    List (String × α) :=
  match m with
  | [] => []
  | (k', v') :: t => if k' = k then t else (k', v') :: mapRemove t k

/-- The keys of an association list. -/
def mapKeys {α : Type} (m : List (String × α)) : List String :=
  m.map (·.1)

/-- The values of an association list, the model of `HashMap::values`
iteration. -/
def mapValues {α : Type} (m : List (String × α)) : List α :=
  m.map (·.2)

/-- Worker for `dedupF`: drop elements already seen. -/
def dedupFAux {α : Type} [DecidableEq α] (seen : List α) : List α → List α
  | [] => []
  | x :: t => if x ∈ seen then dedupFAux seen t else x :: dedupFAux (x :: seen) t

/-- Keep the first occurrence of every element, the model of collecting
a list into a `HashSet` and iterating it (the list order stands for the
hash-dependent iteration order). -/
def dedupF {α : Type} [DecidableEq α] (l : List α) : List α :=
  dedupFAux [] l

/-- The model of `HashSet::difference` iteration: elements of the first
set, in its iteration order, that are not in the second. -/
def setDiff {α : Type} [DecidableEq α] (l1 l2 : List α) : List α :=
  (dedupF l1).filter (fun x => x ∉ l2)

/-- The model of `HashSet::intersection` iteration. -/
def setInter {α : Type} [DecidableEq α] (l1 l2 : List α) : List α :=
  (dedupF l1).filter (fun x => x ∈ l2)

/-- The model of `HashSet::union` iteration: the first set's elements
followed by the second set's elements not in the first. -/
def setUnion {α : Type} [DecidableEq α] (l1 l2 : List α) : List α :=
  dedupF (l1 ++ l2)

/-- Monadic map over `Option`: `none` as soon as `f` fails, used to
model loops containing `unwrap` on lookups. -/
def mapMOpt {α β : Type} (f : α → Option β) : List α → Option (List β)
  | [] => some []
  | x :: t =>
    match f x with
    | none => none
    | some y => (mapMOpt f t).map (y :: ·)

/-! ## The catalog data model (`src/catalog/src/lib.rs`)

`sqlparser::ast::DataType` is external to the repository; the spec
says the type vocabulary is a small closed set (integer, text, …), so
it is embedded as a two-element type.  `uuid::Uuid` is also external;
it is embedded as its (lower-cased) string rendering. -/

inductive DataType where
  | INTEGER
  | TEXT
deriving DecidableEq

structure Column where
  uid : Nat
  name : String
  data_type : DataType
deriving DecidableEq

structure Table where
  «namespace» : String
  uuid : String
  name : String
  columns : List Column
deriving DecidableEq

/-- `HttpHandler` from `src/catalog/src/lib.rs` lines 147-153: namespace,
name, body (the rendered SQL statement) and policy (name reference). -/
structure HttpHandler where
  «namespace» : String
  name : String
  body : String
  policy : String
deriving DecidableEq

inductive AuthenticationPolicyType where
  | Anonymous
deriving DecidableEq

structure AuthenticationPolicy where
  «namespace» : String
  name : String
  typ : AuthenticationPolicyType
deriving DecidableEq

/-- `permissive_expr` is a `sqlparser::ast::Expr`, opaque to this core;
embedded as its textual rendering. -/
structure AuthorizationPolicy where
  «namespace» : String
  name : String
  permissive_expr : String
deriving DecidableEq

structure Namespace where
  name : String
  tables : List (String × Table)
  http_handlers : List (String × HttpHandler)
  authentication_policies : List (String × AuthenticationPolicy)
  authorization_policies : List (String × AuthorizationPolicy)
deriving DecidableEq

/-- `Namespace::default()` with a name, as built by
`Catalog::apply(CreateNamespace)` and `Diff::diff`. -/
def emptyNamespace (name : String) : Namespace :=
  { name := name, tables := [], http_handlers := [],
    authentication_policies := [], authorization_policies := [] }

structure Catalog where
  namespaces : List (String × Namespace)
deriving DecidableEq

/-- `Catalog::default()`. -/
def emptyCatalog : Catalog := { namespaces := [] }

def Namespace.get_table_by_uuid (ns : Namespace) (uuid : String) : Option Table :=
  (mapValues ns.tables).find? (fun t => t.uuid = uuid)

def Namespace.get_http_handler_by_name (ns : Namespace) (name : String) :
    Option HttpHandler :=
  mapGet ns.http_handlers name

def Table.get_column_by_uid (t : Table) (uid : Nat) : Option Column :=
  t.columns.find? (fun c => c.uid = uid)

/-! ## Edits (`src/catalog/src/edit.rs`) and DDL statements

`Diff::diff_table` produces `sqlparser::ast::Statement::AlterTable`
values converted `.into()` edits, and `Catalog::apply` matches an
`Edit::Ddl` arm, so the edit type de facto carries a DDL variant even
though the enum text in `edit.rs` omits it.  Only the `AlterTable`
statement shapes actually built by `diff_table` are embedded; the
quoting of identifiers (`Ident::with_quote('"', ..)`) is dropped and
identifiers are plain strings. -/

inductive AlterColumnOperation where
  | SetDataType (data_type : DataType)
deriving DecidableEq

inductive AlterTableOperation where
  | RenameTable (table_name : String)
  | DropColumn (column_name : String)
  | AddColumn (name : String) (data_type : DataType)
  | RenameColumn (old_column_name : String) (new_column_name : String)
  | AlterColumn (column_name : String) (op : AlterColumnOperation)
deriving DecidableEq

inductive DdlStatement where
  | AlterTable (name : String) (operation : AlterTableOperation)
deriving DecidableEq

inductive Edit where
  | CreateNamespace (name : String)
  | CreateTable (table : Table)
  | DropTable (table : Table)
  | ReplaceHttpHandler (handler : HttpHandler)
  | DropHttpHandler (handler : HttpHandler)
  | ReplaceAuthenticationPolicy (policy : AuthenticationPolicy)
  | DropAuthenticationPolicy (policy : AuthenticationPolicy)
  | ReplaceAuthorizationPolicy (policy : AuthorizationPolicy)
  | DropAuthorizationPolicy (policy : AuthorizationPolicy)
  | Ddl (stmt : DdlStatement)
deriving DecidableEq

/-! ## Apply (`src/catalog/src/lib.rs`, `Catalog::apply`)

The Rust function returns `Result<(), Error>` but never constructs an
error: its failure modes are panics (`.get_mut(..).unwrap()` when the
edit's namespace is absent, and `todo!()` for `Edit::Ddl`).  `none`
models those panics. -/

def Catalog.apply (c : Catalog) (e : Edit) : Option Catalog :=
  match e with
  | .CreateNamespace name =>
    some { namespaces := mapInsert c.namespaces name (emptyNamespace name) }
  | .CreateTable table =>
    (mapGet c.namespaces table.«namespace»).map fun ns =>
      { namespaces := mapInsert c.namespaces table.«namespace»
          { ns with tables := mapInsert ns.tables table.name table } }
  | .DropTable table =>
    (mapGet c.namespaces table.«namespace»).map fun ns =>
      { namespaces := mapInsert c.namespaces table.«namespace»
          { ns with tables := mapRemove ns.tables table.name } }
  | .ReplaceHttpHandler handler =>
    (mapGet c.namespaces handler.«namespace»).map fun ns =>
      { namespaces := mapInsert c.namespaces handler.«namespace»
          { ns with http_handlers := mapInsert ns.http_handlers handler.name handler } }
  | .DropHttpHandler handler =>
    (mapGet c.namespaces handler.«namespace»).map fun ns =>
      { namespaces := mapInsert c.namespaces handler.«namespace»
          { ns with http_handlers := mapRemove ns.http_handlers handler.name } }
  | .ReplaceAuthenticationPolicy policy =>
    (mapGet c.namespaces policy.«namespace»).map fun ns =>
      { namespaces := mapInsert c.namespaces policy.«namespace»
          { ns with authentication_policies :=
              mapInsert ns.authentication_policies policy.name policy } }
  | .DropAuthenticationPolicy policy =>
    (mapGet c.namespaces policy.«namespace»).map fun ns =>
      { namespaces := mapInsert c.namespaces policy.«namespace»
          { ns with authentication_policies :=
              mapRemove ns.authentication_policies policy.name } }
  | .ReplaceAuthorizationPolicy policy =>
    (mapGet c.namespaces policy.«namespace»).map fun ns =>
      { namespaces := mapInsert c.namespaces policy.«namespace»
          { ns with authorization_policies :=
              mapInsert ns.authorization_policies policy.name policy } }
  | .DropAuthorizationPolicy policy =>
    (mapGet c.namespaces policy.«namespace»).map fun ns =>
      { namespaces := mapInsert c.namespaces policy.«namespace»
          { ns with authorization_policies :=
              mapRemove ns.authorization_policies policy.name } }
  | .Ddl _ => none

/-- Sequential application of an edit script, `none` if any single
apply panics. -/
def Catalog.applyAll (c : Catalog) : List Edit → Option Catalog
  | [] => some c
  | e :: es =>
    match c.apply e with
    | some c' => Catalog.applyAll c' es
    | none => none

/-! ## Diff (`src/catalog/src/diff.rs`)

`DiffError` is never constructed by the Rust code; the only failure
modes of `diff` are panics: the `unreachable!()` arm when a namespace's
recorded `name` is not a key of either map, the
`assert_eq!(a.name, b.name)` in `diff_namespace`, and the `.unwrap()`
on handler lookups.  `none` models those panics.

In `diff_namespace` the handler edits are built as
`HttpHandler { namespace: .., name: .. }` without the struct's `body`
and `policy` fields (the expression does not typecheck against the
struct in `lib.rs`); they are embedded with those two fields empty. -/

def Diff.diff_table (a b : Table) : List Edit :=
  let renameStmts : List Edit :=
    if a.name ≠ b.name then
      [Edit.Ddl (DdlStatement.AlterTable a.name
        (AlterTableOperation.RenameTable b.name))]
    else []
  let table_name : String := if a.name ≠ b.name then b.name else a.name
  let a_column_ids := a.columns.map (·.uid)
  let b_column_ids := b.columns.map (·.uid)
  let dropOps : List AlterTableOperation :=
    (setDiff a_column_ids b_column_ids).filterMap fun uid =>
      (a.get_column_by_uid uid).map fun column =>
        AlterTableOperation.DropColumn column.name
  let addOps : List AlterTableOperation :=
    (setDiff b_column_ids a_column_ids).filterMap fun uid =>
      (b.get_column_by_uid uid).map fun column =>
        AlterTableOperation.AddColumn column.name column.data_type
  let changeOps : List AlterTableOperation :=
    (setInter a_column_ids b_column_ids).flatMap fun uid =>
      match a.get_column_by_uid uid, b.get_column_by_uid uid with
      | some a_column, some b_column =>
        (if a_column.name ≠ b_column.name then
          [AlterTableOperation.RenameColumn a_column.name b_column.name]
        else []) ++
        (if a_column.data_type ≠ b_column.data_type then
          [AlterTableOperation.AlterColumn b_column.name
            (AlterColumnOperation.SetDataType b_column.data_type)]
        else [])
      | _, _ => []
  renameStmts ++
    (dropOps ++ addOps ++ changeOps).map fun op =>
      Edit.Ddl (DdlStatement.AlterTable table_name op)

def Diff.diff_namespace (a b : Namespace) : Option (List Edit) :=
  if a.name ≠ b.name then none
  else
    let a_table_ids := dedupF ((mapValues a.tables).map (·.uuid))
    let b_table_ids := dedupF ((mapValues b.tables).map (·.uuid))
    let drops : List Edit :=
      (setDiff a_table_ids b_table_ids).filterMap fun table_id =>
        (a.get_table_by_uuid table_id).map Edit.DropTable
    let creates : List Edit :=
      (setDiff b_table_ids a_table_ids).filterMap fun table_id =>
        (b.get_table_by_uuid table_id).map Edit.CreateTable
    let tableDiffs : List Edit :=
      (setInter a_table_ids b_table_ids).flatMap fun table_id =>
        match a.get_table_by_uuid table_id, b.get_table_by_uuid table_id with
        | some a_table, some b_table => Diff.diff_table a_table b_table
        | _, _ => []
    let a_handler_names := dedupF ((mapValues a.http_handlers).map (·.name))
    let b_handler_names := dedupF ((mapValues b.http_handlers).map (·.name))
    let handlerDrops : Option (List Edit) :=
      mapMOpt (fun handler_name =>
        (a.get_http_handler_by_name handler_name).map fun handler =>
          Edit.DropHttpHandler
            { «namespace» := a.name, name := handler.name,
              body := "", policy := "" })
        (setDiff a_handler_names b_handler_names)
    let handlerCreates : Option (List Edit) :=
      mapMOpt (fun handler_name =>
        (b.get_http_handler_by_name handler_name).map fun handler =>
          Edit.ReplaceHttpHandler
            { «namespace» := b.name, name := handler.name,
              body := "", policy := "" })
        (setDiff b_handler_names a_handler_names)
    match handlerDrops, handlerCreates with
    | some hd, some hc => some (drops ++ creates ++ tableDiffs ++ hd ++ hc)
    | _, _ => none

/-- The body of `diff`'s loop over namespace names, hoisted into a
named function: the edits contributed by one namespace name. -/
def Diff.diff_ns_entry (a b : Catalog) (ns_name : String) :
    Option (List Edit) :=
  match mapGet a.namespaces ns_name, mapGet b.namespaces ns_name with
  | some a_ns, some b_ns => Diff.diff_namespace a_ns b_ns
  | some a_ns, none => Diff.diff_namespace a_ns (emptyNamespace a_ns.name)
  | none, some b_ns =>
    (Diff.diff_namespace (emptyNamespace b_ns.name) b_ns).map
      (Edit.CreateNamespace b_ns.name :: ·)
  | none, none => none

def Diff.diff (a b : Catalog) : Option (List Edit) :=
  let names := setUnion ((mapValues a.namespaces).map (·.name))
    ((mapValues b.namespaces).map (·.name))
  (mapMOpt (Diff.diff_ns_entry a b) names).map List.flatten

/-! ## Score statements (`src/score/src/parser.rs`, data) -/

structure SqlColumnDef where
  name : String
  data_type : DataType
deriving DecidableEq

structure ColumnDef where
  uid : Nat
  inner : SqlColumnDef
deriving DecidableEq

structure TableDecl where
  name : String
  uuid : String
  columns : List ColumnDef
deriving DecidableEq

/-- `sql::parser::Statement` wraps a `sqlparser` SQL statement, opaque
to this core (the spec treats handler bodies as opaque text); embedded
as the carried text, with `render` standing for `to_string()`. -/
inductive SqlStatement where
  | Statement (text : String)
deriving DecidableEq

def SqlStatement.render : SqlStatement → String
  | .Statement text => text

structure HttpHandlerDecl where
  name : String
  policy : String
  body : SqlStatement
deriving DecidableEq

structure AuthenticationPolicyDecl where
  name : String
  typ : String
deriving DecidableEq

structure AuthorizationPolicyDecl where
  name : String
  permissive_expr : String
deriving DecidableEq

inductive Statement where
  | NamespaceDecl (name : String)
  | TableDecl (d : TableDecl)
  | HttpHandlerDecl (d : HttpHandlerDecl)
  | AuthenticationPolicyDecl (d : AuthenticationPolicyDecl)
  | AuthorizationPolicyDecl (d : AuthorizationPolicyDecl)
deriving DecidableEq

structure ScoreFile where
  path : String
  statements : List Statement
deriving DecidableEq

structure ScorePkg where
  path : String
  files : List ScoreFile
deriving DecidableEq

inductive ScoreError where
  | CompileError (error : String) (path : String)
  | Error (msg : String)
deriving DecidableEq

/-- Outcome of a compiler run: a value, a returned `ScoreError`, or a
panic (`unreachable!()` or an out-of-bounds/`unwrap` failure). -/
inductive CompileResult (α : Type) where
  | ok (val : α)
  | err (e : ScoreError)
  | panic
deriving DecidableEq

/-! ## Compiler (`src/score/src/compiler.rs`)

The statement loop of `compile_pkg` handles only `TableDecl` and
`HttpHandlerDecl`; every other statement in a file's tail falls into
the `_ => unreachable!()` arm (a panic).  The handler construction in
the source omits the struct's `policy` field (it does not typecheck
against `HttpHandler` in `lib.rs`); it is embedded with that field
empty. -/

def compileColumns (cols : List ColumnDef) (column_names : List String)
    (column_uids : List Nat) (acc : List Column) : CompileResult (List Column) :=
  match cols with
  | [] => .ok acc
  | col :: rest =>
    if col.inner.name ∈ column_names ∨ col.uid ∈ column_uids then
      .err (.Error ("conflicting column declaration " ++ col.inner.name ++ " "
        ++ toString col.uid))
    else
      compileColumns rest (col.inner.name :: column_names)
        (col.uid :: column_uids)
        (acc ++ [{ uid := col.uid, name := col.inner.name,
                   data_type := col.inner.data_type }])

/-- The per-namespace compiler state: the namespace being built and the
accumulated table name/uuid sets. -/
structure CState where
  ns : Namespace
  table_names : List String
  table_uuids : List String

def compileStmt (path : String) (st : CState) : Statement → CompileResult CState
  | .TableDecl table_decl =>
    match compileColumns table_decl.columns [] [] [] with
    | .err e => .err e
    | .panic => .panic
    | .ok cols =>
      if table_decl.name ∈ st.table_names ∨ table_decl.uuid ∈ st.table_uuids then
        .err (.CompileError ("conflicting table declaration: " ++ table_decl.name)
          path)
      else
        let table : Table :=
          { «namespace» := st.ns.name, uuid := table_decl.uuid,
            name := table_decl.name, columns := cols }
        let ts := mapInsert st.ns.tables table_decl.name table
        .ok { ns := { st.ns with tables := ts },
              table_names := table_decl.name :: st.table_names,
              table_uuids := table_decl.uuid :: st.table_uuids }
  | .HttpHandlerDecl handler_decl =>
    if (mapGet st.ns.http_handlers handler_decl.name).isSome then
      .err (.CompileError
        ("conflicting http handler declaration: " ++ handler_decl.name) path)
    else
      let handler : HttpHandler :=
        { «namespace» := st.ns.name, name := handler_decl.name,
          body := handler_decl.body.render, policy := "" }
      let hs := mapInsert st.ns.http_handlers handler_decl.name handler
      .ok { st with ns := { st.ns with http_handlers := hs } }
  | _ => .panic

def compileStmts (path : String) (st : CState) :
    List Statement → CompileResult CState
  | [] => .ok st
  | s :: rest =>
    match compileStmt path st s with
    | .ok st' => compileStmts path st' rest
    | .err e => .err e
    | .panic => .panic

def compileFile (namespace_name : String) (st : CState) (f : ScoreFile) :
    CompileResult CState :=
  match f.statements with
  | [] => .err (.Error "expected namespace declaration")
  | s :: rest =>
    match s with
    | .NamespaceDecl name =>
      if name ≠ namespace_name then
        .err (.Error ("conflicting namespace declaration " ++ name ++ " and "
          ++ namespace_name ++ " in the same package"))
      else compileStmts f.path st rest
    | _ => .err (.Error "expected namespace declaration")

def compileFiles (namespace_name : String) (st : CState) :
    List ScoreFile → CompileResult CState
  | [] => .ok st
  | f :: rest =>
    match compileFile namespace_name st f with
    | .ok st' => compileFiles namespace_name st' rest
    | .err e => .err e
    | .panic => .panic

def ScoreCompiler.compile_pkg (pkg : ScorePkg) : CompileResult Namespace :=
  match pkg.files with
  | [] => .panic
  | f0 :: _ =>
    match f0.statements with
    | [] => .panic
    | s0 :: _ =>
      match s0 with
      | .NamespaceDecl namespace_name =>
        match compileFiles namespace_name
            { ns := emptyNamespace namespace_name,
              table_names := [], table_uuids := [] } pkg.files with
        | .ok st => .ok st.ns
        | .err e => .err e
        | .panic => .panic
      | _ => .err (.Error "expected namespace declaration")

def ScoreCompiler.compile (pkg : ScorePkg) : CompileResult Catalog :=
  if pkg.files.isEmpty then .ok emptyCatalog
  else
    match ScoreCompiler.compile_pkg pkg with
    | .ok ns => .ok { namespaces := mapInsert emptyCatalog.namespaces ns.name ns }
    | .err e => .err e
    | .panic => .panic

/-! ## Parser (`src/score/src/parser.rs`)

The tokenizer is external (`sqlparser::tokenizer`); the parser is
embedded over a list of tokens.  Token positions (line/column) are a
tokenizer concern and are not carried.  `ParseError` corresponds to the
`ScoreError::Error` values built by `ScoreParser::expected`. -/

inductive Token where
  | Word (s : String)
  | Number (s : String)
  | SingleQuoted (s : String)
  | DollarQuoted (s : String)
  | LParen
  | RParen
  | Comma
  | SemiColon
  | Eq
deriving DecidableEq

inductive ParseError where
  | Expected (expected : String) (found : Option Token)
deriving DecidableEq

def peekTok (ts : List Token) : Option Token := ts.head?

/-- `Parser::consume_token`: consume the next token if it equals `t`. -/
def consumeTok (t : Token) (ts : List Token) : Bool × List Token :=
  match ts with
  | x :: r => if x = t then (true, r) else (false, ts)
  | [] => (false, ts)

/-- Kernel-reducible lower-casing (the model of case-insensitive
keyword matching). -/
def strLower (s : String) : String := String.mk (s.data.map Char.toLower)

/-- Kernel-reducible upper-casing. -/
def strUpper (s : String) : String := String.mk (s.data.map Char.toUpper)

/-- Kernel-reducible digit-string parsing, the model of
`str::parse::<u32>` on the tokenizer's number literals. -/
def strToNat? (s : String) : Option Nat :=
  if s.data ≠ [] ∧ s.data.all (·.isDigit) then
    some (s.data.foldl (fun n c => n * 10 + (c.toNat - 48)) 0)
  else none

/-- `Parser::parse_identifier` (external sqlparser): accepts a word
token. -/
def parse_identifier (ts : List Token) :
    Except ParseError (String × List Token) :=
  match ts with
  | Token.Word s :: r => .ok (s, r)
  | _ => .error (.Expected "identifier" (peekTok ts))

/-- Modelled from the spec: the data types come from the small closed
vocabulary of §3/§4.1 (integer, text); `sqlparser`'s `parse_data_type`
is external and matches keywords case-insensitively. -/
def dataTypeOfWord (w : String) : Option DataType :=
  if strUpper w = "INTEGER" then some DataType.INTEGER
  else if strUpper w = "TEXT" then some DataType.TEXT
  else none

def parse_data_type (ts : List Token) :
    Except ParseError (DataType × List Token) :=
  match ts with
  | Token.Word s :: r =>
    match dataTypeOfWord s with
    | some dt => .ok (dt, r)
    | none => .error (.Expected "a data type" (some (Token.Word s)))
  | _ => .error (.Expected "a data type" (peekTok ts))

inductive Value where
  | Number (s : String)
  | SingleQuotedString (s : String)
  | DollarQuotedString (s : String)
deriving DecidableEq

/-- `Parser::parse_value` (external sqlparser), restricted to the value
tokens of the embedded token type. -/
def parse_value (ts : List Token) : Except ParseError (Value × List Token) :=
  match ts with
  | Token.Number s :: r => .ok (Value.Number s, r)
  | Token.SingleQuoted s :: r => .ok (Value.SingleQuotedString s, r)
  | Token.DollarQuoted s :: r => .ok (Value.DollarQuotedString s, r)
  | _ => .error (.Expected "a value" (peekTok ts))

/-- `ScoreParser::parse_column_def_uid`: the `UID` keyword (matched
case-insensitively) followed by a numeric literal parsed as a `u32`. -/
def parse_column_def_uid (ts : List Token) :
    Except ParseError (Nat × List Token) :=
  match ts with
  | Token.Word w :: r =>
    if strLower w = "uid" then
      match parse_value r with
      | .ok (Value.Number num, r') =>
        match strToNat? num with
        | some n =>
          if n < 4294967296 then .ok (n, r')
          else .error (.Expected "u32 literal" (some (Token.Number num)))
        | none => .error (.Expected "u32 literal" (some (Token.Number num)))
      | .ok (_, r') => .error (.Expected "literal number" (peekTok r'))
      | .error e => .error e
    else .error (.Expected "UID <literal number>" (peekTok ts))
  | _ => .error (.Expected "UID <literal number>" (peekTok ts))

def parse_column_def (ts : List Token) :
    Except ParseError (ColumnDef × List Token) :=
  match parse_identifier ts with
  | .error e => .error e
  | .ok (name, ts1) =>
    match parse_data_type ts1 with
    | .error e => .error e
    | .ok (dt, ts2) =>
      match parse_column_def_uid ts2 with
      | .error e => .error e
      | .ok (uid, ts3) =>
        .ok ({ uid := uid, inner := { name := name, data_type := dt } }, ts3)

/-- Modelled from the spec: the spec grammar (§4.1) contains no table
constraints, and `sqlparser`'s `parse_optional_table_constraint` is
external.  The model recognizes the constraint-introducing keywords; on
any other token no constraint is found and no input is consumed. -/
def constraintKeywords : List String :=
  ["CONSTRAINT", "PRIMARY", "FOREIGN", "UNIQUE", "CHECK"]

def startsConstraint (ts : List Token) : Bool :=
  match ts with
  | Token.Word w :: _ => strUpper w ∈ constraintKeywords
  | _ => false

/-- The column-list loop of `ScoreParser::parse_columns`: per iteration
a constraint is looked for (rejected in this model, see
`startsConstraint`), then a column definition is parsed, then a comma
and/or the closing parenthesis is consumed — a trailing comma before
the closing parenthesis is accepted.  The `fuel` argument only bounds
the number of iterations: every iteration consumes at least one token,
so with the initial fuel `parse_columns` passes (the remaining token
count) the fuel-exhausted error is unreachable. -/
def parse_columns_go (fuel : Nat) (ts : List Token) (acc : List ColumnDef) :
    Except ParseError (List ColumnDef × List Token) :=
  match fuel with
  | 0 => .error (.Expected "column list" (peekTok ts))
  | fuel' + 1 =>
    if startsConstraint ts then
      .error (.Expected "column definition without table constraints"
        (peekTok ts))
    else
      match peekTok ts with
      | some (Token.Word _) =>
        match parse_column_def ts with
        | .error e => .error e
        | .ok (cd, ts1) =>
          let c1 := consumeTok Token.Comma ts1
          let c2 := consumeTok Token.RParen c1.2
          if c2.1 then .ok (acc ++ [cd], c2.2)
          else if !c1.1 then
            .error (.Expected "a comma or closing paren after column definition"
              (peekTok c1.2))
          else parse_columns_go fuel' c1.2 (acc ++ [cd])
      | _ => .error (.Expected "column name or constraint definition" (peekTok ts))

/-- `ScoreParser::parse_columns`: no opening parenthesis or an
immediately closing one yields an empty column list. -/
def parse_columns (ts : List Token) :
    Except ParseError (List ColumnDef × List Token) :=
  let lp := consumeTok Token.LParen ts
  if !lp.1 then .ok ([], ts)
  else
    let rp := consumeTok Token.RParen lp.2
    if rp.1 then .ok ([], rp.2)
    else parse_columns_go lp.2.length lp.2 []

def isHexDigit (c : Char) : Bool :=
  c.isDigit || c ∈ "abcdefABCDEF".data

/-- Modelled from the external uuid crate per the spec's `quoted-uuid`:
the standard hyphenated rendering, 36 characters with hyphens at
positions 8, 13, 18 and 23 and hex digits elsewhere. -/
def validUuid (s : String) : Bool :=
  s.length == 36 &&
    s.toList.enum.all fun p =>
      if p.1 == 8 || p.1 == 13 || p.1 == 18 || p.1 == 23 then p.2 == '-'
      else isHexDigit p.2

/-- Modelled from the external uuid crate: `Uuid::parse_str` followed
by the embedding of a uuid as its lower-cased string rendering (uuid
equality is case-insensitive). -/
def uuidParse (s : String) : Option String :=
  if validUuid s then some (strLower s) else none

def parse_table_uuid (ts : List Token) :
    Except ParseError (String × List Token) :=
  match ts with
  | Token.Word w :: r =>
    if strLower w = "uuid" then
      match parse_value r with
      | .ok (Value.SingleQuotedString s, r') =>
        match uuidParse s with
        | some u => .ok (u, r')
        | none => .error (.Expected "valid uuid value" (peekTok r))
      | .ok (_, _) => .error (.Expected "single quoted uuid string" (peekTok r))
      | .error e => .error e
    else .error (.Expected "UUID <single quoted uuid string>" (peekTok ts))
  | _ => .error (.Expected "UUID <single quoted uuid string>" (peekTok ts))

def parse_table_decl (ts : List Token) :
    Except ParseError (Statement × List Token) :=
  match parse_identifier ts with
  | .error e => .error e
  | .ok (name, ts1) =>
    match parse_table_uuid ts1 with
    | .error e => .error e
    | .ok (uuid, ts2) =>
      match parse_columns ts2 with
      | .error e => .error e
      | .ok (columns, ts3) =>
        .ok (Statement.TableDecl
          { name := name, uuid := uuid, columns := columns }, ts3)

/-- `Parser::expect_token` compares the exact token (for `Word` tokens
the exact value). -/
def expectToken (t : Token) (ts : List Token) :
    Except ParseError (List Token) :=
  match ts with
  | x :: r =>
    if x = t then .ok r
    else .error (.Expected "token" (some x))
  | [] => .error (.Expected "token" none)

/-- `Parser::expect_keyword` (external sqlparser) matches a keyword
case-insensitively. -/
def expectKeyword (kw : String) (ts : List Token) :
    Except ParseError (List Token) :=
  match ts with
  | Token.Word w :: r =>
    if strUpper w = strUpper kw then .ok r
    else .error (.Expected kw (some (Token.Word w)))
  | _ => .error (.Expected kw (peekTok ts))

/-- `ScoreParser::parse_http_handler_decl`.  The dollar-quoted body is
handed to the `sql` crate's statement parser, external to this model;
the first parsed statement is kept.  The model carries the raw text. -/
def parse_http_handler_decl (ts : List Token) :
    Except ParseError (Statement × List Token) :=
  match parse_identifier ts with
  | .error e => .error e
  | .ok (name, ts1) =>
    match expectToken (Token.Word "POLICY") ts1 with
    | .error e => .error e
    | .ok ts2 =>
      match parse_identifier ts2 with
      | .error e => .error e
      | .ok (policy, ts3) =>
        match expectKeyword "AS" ts3 with
        | .error e => .error e
        | .ok ts4 =>
          match ts4 with
          | Token.DollarQuoted value :: r =>
            .ok (Statement.HttpHandlerDecl
              { name := name, policy := policy,
                body := SqlStatement.Statement value }, r)
          | _ => .error (.Expected "dollar quoted string" (peekTok ts4))

def parse_authentication_policy_decl (ts : List Token) :
    Except ParseError (Statement × List Token) :=
  match parse_identifier ts with
  | .error e => .error e
  | .ok (name, ts1) =>
    match expectKeyword "TYPE" ts1 with
    | .error e => .error e
    | .ok ts2 =>
      match expectToken Token.Eq ts2 with
      | .error e => .error e
      | .ok ts3 =>
        match expectToken (Token.Word "anonymous") ts3 with
        | .error e => .error e
        | .ok ts4 =>
          .ok (Statement.AuthenticationPolicyDecl
            { name := name, typ := "anonymous" }, ts4)

/-- `ScoreParser::parse_authorization_policy_decl`.  The permissive
expression is parsed by the external sqlparser expression parser;
modelled from the spec as an opaque boolean expression: a single value
or word token whose rendering is recorded. -/
def parse_authorization_policy_decl (ts : List Token) :
    Except ParseError (Statement × List Token) :=
  match parse_identifier ts with
  | .error e => .error e
  | .ok (name, ts1) =>
    match expectToken (Token.Word "permissive_expr") ts1 with
    | .error e => .error e
    | .ok ts2 =>
      match expectToken Token.Eq ts2 with
      | .error e => .error e
      | .ok ts3 =>
        match ts3 with
        | Token.Word w :: r =>
          .ok (Statement.AuthorizationPolicyDecl
            { name := name, permissive_expr := w }, r)
        | Token.Number w :: r =>
          .ok (Statement.AuthorizationPolicyDecl
            { name := name, permissive_expr := w }, r)
        | Token.SingleQuoted w :: r =>
          .ok (Statement.AuthorizationPolicyDecl
            { name := name, permissive_expr := w }, r)
        | _ => .error (.Expected "an expression" (peekTok ts3))

/-- `ScoreParser::parse_statement`: dispatch on the exact
(case-sensitive) statement keyword. -/
def parse_statement (ts : List Token) :
    Except ParseError (Statement × List Token) :=
  match ts with
  | Token.Word w :: r =>
    if w = "TABLE" then parse_table_decl r
    else if w = "HTTP_HANDLER" then parse_http_handler_decl r
    else if w = "AUTHENTICATION_POLICY" then parse_authentication_policy_decl r
    else if w = "AUTHORIZATION_POLICY" then parse_authorization_policy_decl r
    else .error (.Expected
      "one of TABLE, HTTP_HANDLER, AUTHENTICATION_POLICY, AUTHORIZATION_POLICY"
      (peekTok ts))
  | _ => .error (.Expected
      "one of TABLE, HTTP_HANDLER, AUTHENTICATION_POLICY, AUTHORIZATION_POLICY"
      (peekTok ts))

/-- `ScoreParser::parse_namespace_decl`: the `NAMESPACE` keyword
(matched case-insensitively) followed by an identifier. -/
def parse_namespace_decl (ts : List Token) :
    Except ParseError (String × List Token) :=
  match ts with
  | Token.Word w :: r =>
    if strLower w = "namespace" then
      match parse_identifier r with
      | .error e => .error e
      | .ok (n, r') => .ok (n, r')
    else .error (.Expected "NAMESPACE <single quoted namespace string>"
      (peekTok ts))
  | _ => .error (.Expected "NAMESPACE <single quoted namespace string>"
      (peekTok ts))

/-! ## Well-formedness and structural equality

The spec's catalog invariants (§3): map keys agree with the entity's
`name` field, owning-namespace fields agree with the namespace, table
uuids and names are unique within a namespace, column uids and names
within a table, handler/policy names within a namespace.

Rust's structural equality of catalogs is `HashMap` equality: equal key
sets with equal values, independent of iteration order.  In the
association-list embedding this is lookup equality, `mapEquiv`. -/

def Namespace.WF (ns : Namespace) : Prop :=
  (mapKeys ns.tables).Nodup ∧
  (∀ p ∈ ns.tables, p.2.name = p.1 ∧ p.2.«namespace» = ns.name ∧
    (p.2.columns.map (·.uid)).Nodup ∧ (p.2.columns.map (·.name)).Nodup) ∧
  ((mapValues ns.tables).map (·.uuid)).Nodup ∧
  (mapKeys ns.http_handlers).Nodup ∧
  (∀ p ∈ ns.http_handlers, p.2.name = p.1 ∧ p.2.«namespace» = ns.name) ∧
  (mapKeys ns.authentication_policies).Nodup ∧
  (∀ p ∈ ns.authentication_policies, p.2.name = p.1 ∧ p.2.«namespace» = ns.name) ∧
  (mapKeys ns.authorization_policies).Nodup ∧
  (∀ p ∈ ns.authorization_policies, p.2.name = p.1 ∧ p.2.«namespace» = ns.name)

instance (ns : Namespace) : Decidable ns.WF := by
  unfold Namespace.WF; infer_instance

def Catalog.WF (c : Catalog) : Prop :=
  (mapKeys c.namespaces).Nodup ∧
  ∀ p ∈ c.namespaces, p.2.name = p.1 ∧ p.2.WF

instance (c : Catalog) : Decidable c.WF := by
  unfold Catalog.WF; infer_instance

/-- Lookup equality of association lists: equality of the maps they
represent. -/
def mapEquiv {α : Type} (m1 m2 : List (String × α)) : Prop :=
  ∀ k, mapGet m1 k = mapGet m2 k

/-- Lift a relation to `Option`, requiring the same constructor. -/
def optRel {α : Type} (r : α → α → Prop) : Option α → Option α → Prop
  | none, none => True
  | some a, some b => r a b
  | _, _ => False

/-- Structural equality of namespaces: equal names and equal maps. -/
def Namespace.equiv (n1 n2 : Namespace) : Prop :=
  n1.name = n2.name ∧ mapEquiv n1.tables n2.tables ∧
  mapEquiv n1.http_handlers n2.http_handlers ∧
  mapEquiv n1.authentication_policies n2.authentication_policies ∧
  mapEquiv n1.authorization_policies n2.authorization_policies

/-- Structural equality of catalogs. -/
def Catalog.equiv (c1 c2 : Catalog) : Prop :=
  ∀ k, optRel Namespace.equiv (mapGet c1.namespaces k) (mapGet c2.namespaces k)

instance {ε α : Type} [DecidableEq ε] [DecidableEq α] :
    DecidableEq (Except ε α) := fun a b =>
  match a, b with
  | .ok x, .ok y =>
    if h : x = y then isTrue (by rw [h])
    else isFalse (by intro c; cases c; exact h rfl)
  | .error x, .error y =>
    if h : x = y then isTrue (by rw [h])
    else isFalse (by intro c; cases c; exact h rfl)
  | .ok _, .error _ => isFalse (by intro c; cases c)
  | .error _, .ok _ => isFalse (by intro c; cases c)

/-! ## Concrete fixtures used by the claim theorems -/

/-- A catalog with one empty namespace `n`. -/
def c1from : Catalog := { namespaces := [("n", emptyNamespace "n")] }

/-- Two structurally equal catalogs whose namespace maps are stored in
different iteration orders. -/
def c2catA : Catalog :=
  { namespaces := [("a", emptyNamespace "a"), ("b", emptyNamespace "b")] }

def c2catB : Catalog :=
  { namespaces := [("b", emptyNamespace "b"), ("a", emptyNamespace "a")] }

def c3table : Table :=
  { «namespace» := "n", uuid := "u1", name := "t", columns := [] }

def c3handler : HttpHandler :=
  { «namespace» := "n", name := "h", body := "SELECT 1", policy := "p" }

def c3authn : AuthenticationPolicy :=
  { «namespace» := "n", name := "ap", typ := AuthenticationPolicyType.Anonymous }

def c3authz : AuthorizationPolicy :=
  { «namespace» := "n", name := "zp", permissive_expr := "true" }

def c4pkgAuthn : ScorePkg :=
  { path := "pkg", files := [
      { path := "f.score", statements := [Statement.NamespaceDecl "n",
          Statement.AuthenticationPolicyDecl { name := "p", typ := "anonymous" }] }] }

def c4pkgAuthz : ScorePkg :=
  { path := "pkg", files := [
      { path := "f.score", statements := [Statement.NamespaceDecl "n",
          Statement.AuthorizationPolicyDecl
            { name := "q", permissive_expr := "true" }] }] }

/-- One table with two columns sharing uid 1. -/
def c5dupColPkg : ScorePkg :=
  { path := "pkg", files := [
      { path := "f.score", statements := [Statement.NamespaceDecl "n",
          Statement.TableDecl { name := "t", uuid := "u1", columns := [
            { uid := 1, inner := { name := "c", data_type := DataType.INTEGER } },
            { uid := 1, inner := { name := "d", data_type := DataType.TEXT } }] }] }] }

/-- Two tables sharing a uuid. -/
def c5dupUuidPkg : ScorePkg :=
  { path := "pkg", files := [
      { path := "f.score", statements := [Statement.NamespaceDecl "n",
          Statement.TableDecl { name := "t1", uuid := "u1", columns := [] },
          Statement.TableDecl { name := "t2", uuid := "u1", columns := [] }] }] }

def c6table1 : Table :=
  { «namespace» := "n", uuid := "u1", name := "t1",
    columns := [{ uid := 1, name := "id", data_type := DataType.INTEGER }] }

def c6table2 : Table := { c6table1 with name := "t2" }

def c6cat1 : Catalog :=
  { namespaces := [("n", { emptyNamespace "n" with tables := [("t1", c6table1)] })] }

def c6cat2 : Catalog :=
  { namespaces := [("n", { emptyNamespace "n" with tables := [("t2", c6table2)] })] }

def c7handler : HttpHandler :=
  { «namespace» := "n", name := "h", body := "SELECT 1", policy := "p" }

def c7from : Catalog := { namespaces := [("n", emptyNamespace "n")] }

def c7toNs : Namespace :=
  { emptyNamespace "n" with http_handlers := [("h", c7handler)] }

def c7to : Catalog := { namespaces := [("n", c7toNs)] }

def c8pkg : ScorePkg :=
  { path := "pkg", files := [
      { path := "f.score", statements := [Statement.NamespaceDecl "n",
          Statement.TableDecl { name := "t", uuid := "u1", columns := [
            { uid := 1, inner := { name := "id", data_type := DataType.INTEGER } }] },
          Statement.HttpHandlerDecl { name := "h", policy := "p",
                                      body := SqlStatement.Statement "SELECT 1" }] }] }

def c8table : Table :=
  { «namespace» := "n", uuid := "u1", name := "t",
    columns := [{ uid := 1, name := "id", data_type := DataType.INTEGER }] }

/-- The catalog `c8pkg` compiles to. -/
def c8catalog : Catalog :=
  { namespaces := [("n",
      { name := "n", tables := [("t", c8table)],
        http_handlers := [("h", { «namespace» := "n", name := "h",
                                  body := "SELECT 1", policy := "" })],
        authentication_policies := [], authorization_policies := [] })] }

def c10cat : Catalog := { namespaces := [("a", emptyNamespace "a")] }

def c10cat' : Catalog :=
  { namespaces := [("a", emptyNamespace "a"), ("n", emptyNamespace "n")] }

/-- Token-level description of one column of a TABLE declaration, used
to quantify over column lists in the parser claims. -/
structure ColSpec where
  name : String
  dt : DataType
  uidStr : String
  uid : Nat
deriving DecidableEq

def dtWord : DataType → String
  | DataType.INTEGER => "INTEGER"
  | DataType.TEXT => "TEXT"

def colSpecToks (c : ColSpec) : List Token :=
  [Token.Word c.name, Token.Word (dtWord c.dt), Token.Word "UID",
   Token.Number c.uidStr]

/-- Comma-separated column chunks. -/
def colSpecsToks : List ColSpec → List Token
  | [] => []
  | [c] => colSpecToks c
  | c :: c' :: rest => colSpecToks c ++ [Token.Comma] ++ colSpecsToks (c' :: rest)

/-- The column a well-formed spec parses to. -/
def colSpecDef (c : ColSpec) : ColumnDef :=
  { uid := c.uid, inner := { name := c.name, data_type := c.dt } }

/-- The spec's name is an ordinary identifier (not a constraint
keyword), and its uid string is the decimal rendering of a `u32`. -/
def ColSpec.Wf (c : ColSpec) : Prop :=
  strUpper c.name ∉ constraintKeywords ∧
  strToNat? c.uidStr = some c.uid ∧ c.uid < 4294967296

instance (c : ColSpec) : Decidable c.Wf := by
  unfold ColSpec.Wf; infer_instance

/-- Column specs for the C9 witness. -/
def c9cols : List ColSpec :=
  [{ name := "id", dt := DataType.INTEGER, uidStr := "1", uid := 1 },
   { name := "age", dt := DataType.TEXT, uidStr := "2", uid := 2 }]

/-- The token stream of a full TABLE declaration (after the dispatching
`TABLE` keyword the statement parser consumes): name, `UUID` keyword,
quoted uuid, and a parenthesized column-token list. -/
def tableDeclToks (name uuid : String) (colToks : List Token)
    (rest : List Token) : List Token :=
  Token.Word "TABLE" :: Token.Word name :: Token.Word "UUID" ::
    Token.SingleQuoted uuid :: Token.LParen ::
    (colToks ++ ([Token.RParen] ++ rest))

/-- The table declarations in a statement-list tail (the statements
after a file's leading namespace declaration). -/
def stmtTables : List Statement → List TableDecl
  | [] => []
  | .TableDecl td :: rest => td :: stmtTables rest
  | _ :: rest => stmtTables rest

/-- The table declarations of a list of files, in compilation order. -/
def filesTables (files : List ScoreFile) : List TableDecl :=
  files.flatMap (fun f => stmtTables (f.statements.drop 1))

/-- All table declarations of a compilation unit. -/
def pkgTables (pkg : ScorePkg) : List TableDecl :=
  pkg.files.flatMap (fun f => stmtTables (f.statements.drop 1))

/-! ## Round-trip machinery: edit targets, per-edit namespace
transformation, and the restriction under which diff/apply
round-trips (claim C1) -/

def editNs : Edit → Option String
  | .CreateNamespace _ => none
  | .CreateTable t => some t.«namespace»
  | .DropTable t => some t.«namespace»
  | .ReplaceHttpHandler h => some h.«namespace»
  | .DropHttpHandler h => some h.«namespace»
  | .ReplaceAuthenticationPolicy p => some p.«namespace»
  | .DropAuthenticationPolicy p => some p.«namespace»
  | .ReplaceAuthorizationPolicy p => some p.«namespace»
  | .DropAuthorizationPolicy p => some p.«namespace»
  | .Ddl _ => none

def nsStep (e : Edit) (ns : Namespace) : Namespace :=
  match e with
  | .CreateTable t => { ns with tables := mapInsert ns.tables t.name t }
  | .DropTable t => { ns with tables := mapRemove ns.tables t.name }
  | .ReplaceHttpHandler h =>
    { ns with http_handlers := mapInsert ns.http_handlers h.name h }
  | .DropHttpHandler h =>
    { ns with http_handlers := mapRemove ns.http_handlers h.name }
  | .ReplaceAuthenticationPolicy p =>
    { ns with authentication_policies :=
        mapInsert ns.authentication_policies p.name p }
  | .DropAuthenticationPolicy p =>
    { ns with authentication_policies :=
        mapRemove ns.authentication_policies p.name }
  | .ReplaceAuthorizationPolicy p =>
    { ns with authorization_policies :=
        mapInsert ns.authorization_policies p.name p }
  | .DropAuthorizationPolicy p =>
    { ns with authorization_policies :=
        mapRemove ns.authorization_policies p.name }
  | _ => ns

def removeBy {α : Type} (f : α → String) (m : List (String × α))
    (vs : List α) : List (String × α) :=
  vs.foldl (fun m v => mapRemove m (f v)) m

def insertBy {α : Type} (f : α → String) (m : List (String × α))
    (vs : List α) : List (String × α) :=
  vs.foldl (fun m v => mapInsert m (f v) v) m

def mkStub (nn n : String) : HttpHandler :=
  { «namespace» := nn, name := n, body := "", policy := "" }

def removeKeys {α : Type} (m : List (String × α)) (ks : List String) :
    List (String × α) :=
  ks.foldl (fun m k => mapRemove m k) m

def insertStubs (nn : String) (m : List (String × HttpHandler))
    (ks : List String) : List (String × HttpHandler) :=
  ks.foldl (fun m k => mapInsert m k (mkStub nn k)) m

/-- Restriction on a pair of namespaces (same name in both catalogs)
under which `diff` followed by `apply` round-trips: tables sharing a
uuid are identical (otherwise `diff_table` emits `Edit::Ddl`
statements and `apply` panics on `todo!()`), handlers sharing a name
are identical (no edit is emitted for them), handlers new in the
target have empty body and policy (the emitted `ReplaceHttpHandler`
carries only namespace and name), and the policy maps agree (no
policy edits exist). -/
def SharedNamespaceCond (nsA nsB : Namespace) : Prop :=
  (∀ tA ∈ mapValues nsA.tables, ∀ tB ∈ mapValues nsB.tables,
    tA.uuid = tB.uuid → tA = tB) ∧
  (∀ pA ∈ nsA.http_handlers, ∀ pB ∈ nsB.http_handlers,
    pA.1 = pB.1 → pA.2 = pB.2) ∧
  (∀ p ∈ nsB.http_handlers, mapGet nsA.http_handlers p.1 = none →
    p.2.body = "" ∧ p.2.policy = "") ∧
  (∀ p ∈ nsA.authentication_policies,
    mapGet nsB.authentication_policies p.1 = some p.2) ∧
  (∀ p ∈ nsB.authentication_policies,
    mapGet nsA.authentication_policies p.1 = some p.2) ∧
  (∀ p ∈ nsA.authorization_policies,
    mapGet nsB.authorization_policies p.1 = some p.2) ∧
  (∀ p ∈ nsB.authorization_policies,
    mapGet nsA.authorization_policies p.1 = some p.2)

instance (nsA nsB : Namespace) : Decidable (SharedNamespaceCond nsA nsB) := by
  unfold SharedNamespaceCond; infer_instance

/-- Restriction on a namespace present only in the target catalog:
its handlers have empty body and policy and its policy maps are
empty (`apply` builds it from `CreateNamespace` plus create edits,
which carry no handler body and no policies). -/
def NewNamespaceCond (nsB : Namespace) : Prop :=
  (∀ p ∈ nsB.http_handlers, p.2.body = "" ∧ p.2.policy = "") ∧
  nsB.authentication_policies = [] ∧ nsB.authorization_policies = []

instance (nsB : Namespace) : Decidable (NewNamespaceCond nsB) := by
  unfold NewNamespaceCond; infer_instance

/-- The edits `diff_namespace` emits for a shared-name namespace pair
under `SharedNamespaceCond`: table drops, table creates, handler
drops and handler creates (the latter two carrying only namespace and
name). -/
def nsBlockEdits (nsA nsB : Namespace) : List Edit :=
  let dts := (setDiff ((mapValues nsA.tables).map (·.uuid))
      ((mapValues nsB.tables).map (·.uuid))).filterMap
      (fun u => nsA.get_table_by_uuid u)
  let cts := (setDiff ((mapValues nsB.tables).map (·.uuid))
      ((mapValues nsA.tables).map (·.uuid))).filterMap
      (fun u => nsB.get_table_by_uuid u)
  let hD := setDiff (mapKeys nsA.http_handlers) (mapKeys nsB.http_handlers)
  let hC := setDiff (mapKeys nsB.http_handlers) (mapKeys nsA.http_handlers)
  dts.map Edit.DropTable ++ cts.map Edit.CreateTable ++
    hD.map (fun k => Edit.DropHttpHandler (mkStub nsA.name k)) ++
    hC.map (fun k => Edit.ReplaceHttpHandler (mkStub nsB.name k))

/-- Restriction on a catalog pair under which `diff` followed by
`apply` round-trips: both catalogs are well-formed, no namespace of
the source is absent from the target (no drop-namespace edit exists),
shared-name namespaces satisfy `SharedNamespaceCond`, and namespaces
new in the target satisfy `NewNamespaceCond`. -/
def RoundtripCond (a b : Catalog) : Prop :=
  a.WF ∧ b.WF ∧
  (∀ p ∈ a.namespaces, mapGet b.namespaces p.1 ≠ none) ∧
  (∀ p ∈ a.namespaces, ∀ q ∈ b.namespaces, p.1 = q.1 →
    SharedNamespaceCond p.2 q.2) ∧
  (∀ q ∈ b.namespaces, mapGet a.namespaces q.1 = none →
    NewNamespaceCond q.2)

instance (a b : Catalog) : Decidable (RoundtripCond a b) := by
  unfold RoundtripCond; infer_instance

/-- Fixture pieces for the round-trip witness. -/
def c1rtT1 : Table :=
  { «namespace» := "n", uuid := "u1", name := "t1",
    columns := [{ uid := 1, name := "id", data_type := DataType.INTEGER }] }

def c1rtTold : Table :=
  { «namespace» := "n", uuid := "u2", name := "told", columns := [] }

def c1rtTnew : Table :=
  { «namespace» := "n", uuid := "u3", name := "tnew", columns := [] }

def c1rtTm : Table :=
  { «namespace» := "m", uuid := "u4", name := "tm", columns := [] }

def c1rtH : HttpHandler :=
  { «namespace» := "n", name := "h", body := "SELECT 1", policy := "p" }

def c1rtHnew : HttpHandler :=
  { «namespace» := "n", name := "hnew", body := "", policy := "" }

def c1rtHm : HttpHandler :=
  { «namespace» := "m", name := "hm", body := "", policy := "" }

def c1rtAp : AuthenticationPolicy :=
  { «namespace» := "n", name := "ap", typ := AuthenticationPolicyType.Anonymous }

def c1rtZp : AuthorizationPolicy :=
  { «namespace» := "n", name := "zp", permissive_expr := "true" }

/-- Source namespace `n` of the round-trip witness: a kept table, a
dropped table, a kept handler and one policy of each kind. -/
def c1rtNsA : Namespace :=
  { name := "n", tables := [("t1", c1rtT1), ("told", c1rtTold)],
    http_handlers := [("h", c1rtH)],
    authentication_policies := [("ap", c1rtAp)],
    authorization_policies := [("zp", c1rtZp)] }

/-- Target namespace `n` of the round-trip witness: the kept table, a
created table, the kept handler, a new empty-bodied handler and the
same policies. -/
def c1rtNsB : Namespace :=
  { name := "n", tables := [("t1", c1rtT1), ("tnew", c1rtTnew)],
    http_handlers := [("h", c1rtH), ("hnew", c1rtHnew)],
    authentication_policies := [("ap", c1rtAp)],
    authorization_policies := [("zp", c1rtZp)] }

/-- Brand-new namespace `m` of the round-trip witness: one table, one
empty-bodied handler, no policies. -/
def c1rtNsM : Namespace :=
  { name := "m", tables := [("tm", c1rtTm)],
    http_handlers := [("hm", c1rtHm)],
    authentication_policies := [], authorization_policies := [] }

def c1rtA : Catalog := { namespaces := [("n", c1rtNsA)] }

def c1rtB : Catalog := { namespaces := [("n", c1rtNsB), ("m", c1rtNsM)] }

/-! ## Association-list and set lemmas -/

theorem mapKeys_nil {α : Type} : mapKeys ([] : List (String × α)) = [] := rfl

theorem mapKeys_cons {α : Type} (p : String × α) (t : List (String × α)) :
    mapKeys (p :: t) = p.1 :: mapKeys t := rfl

theorem mapValues_nil {α : Type} : mapValues ([] : List (String × α)) = [] := rfl

theorem mapValues_cons {α : Type} (p : String × α) (t : List (String × α)) :
    mapValues (p :: t) = p.2 :: mapValues t := rfl

theorem mapGet_nil {α : Type} (k : String) :
    mapGet ([] : List (String × α)) k = none := rfl

theorem mapGet_cons {α : Type} (k' k : String) (v : α) (t : List (String × α)) :
    mapGet ((k', v) :: t) k = if k' = k then some v else mapGet t k := rfl

theorem mem_mapKeys {α : Type} (m : List (String × α)) (a : String) :
    a ∈ mapKeys m ↔ ∃ v, (a, v) ∈ m := by
  induction m with
  | nil => simp [mapKeys_nil]
  | cons p t ih =>
    obtain ⟨pk, pv⟩ := p
    rw [mapKeys_cons, List.mem_cons, ih]
    constructor
    · rintro (rfl | ⟨v, hv⟩)
      · exact ⟨pv, List.mem_cons_self _ _⟩
      · exact ⟨v, List.mem_cons_of_mem _ hv⟩
    · rintro ⟨v, hv⟩
      rcases List.mem_cons.mp hv with h | h
      · exact Or.inl (congrArg Prod.fst h)
      · exact Or.inr ⟨v, h⟩

theorem mem_mapValues {α : Type} (m : List (String × α)) (v : α) :
    v ∈ mapValues m ↔ ∃ k, (k, v) ∈ m := by
  induction m with
  | nil => simp [mapValues_nil]
  | cons p t ih =>
    obtain ⟨pk, pv⟩ := p
    rw [mapValues_cons, List.mem_cons, ih]
    constructor
    · rintro (rfl | ⟨k, hk⟩)
      · exact ⟨pk, List.mem_cons_self _ _⟩
      · exact ⟨k, List.mem_cons_of_mem _ hk⟩
    · rintro ⟨k, hk⟩
      rcases List.mem_cons.mp hk with h | h
      · exact Or.inl (congrArg Prod.snd h)
      · exact Or.inr ⟨k, h⟩

theorem mapGet_insert_self {α : Type} (m : List (String × α)) (k : String)
    (v : α) : mapGet (mapInsert m k v) k = some v := by
  induction m with
  | nil => simp [mapInsert, mapGet]
  | cons p t ih =>
    by_cases h : p.1 = k
    · simp [mapInsert, h, mapGet]
    · simpa [mapInsert, h, mapGet] using ih

theorem mapGet_insert_ne {α : Type} (m : List (String × α)) (k k' : String)
    (v : α) (h : k' ≠ k) : mapGet (mapInsert m k v) k' = mapGet m k' := by
  have h' : ¬ k = k' := fun e => h e.symm
  induction m with
  | nil => simp [mapInsert, mapGet, h']
  | cons p t ih =>
    obtain ⟨pk, pv⟩ := p
    by_cases hp : pk = k
    · subst hp
      simp [mapInsert, mapGet, h']
    · simp only [mapInsert, if_neg hp]
      by_cases hp' : pk = k'
      · simp [mapGet, hp']
      · simp [mapGet, hp', ih]

theorem mapGet_remove_ne {α : Type} (m : List (String × α)) (k k' : String)
    (h : k' ≠ k) : mapGet (mapRemove m k) k' = mapGet m k' := by
  have h' : ¬ k = k' := fun e => h e.symm
  induction m with
  | nil => simp [mapRemove, mapGet]
  | cons p t ih =>
    obtain ⟨pk, pv⟩ := p
    by_cases hp : pk = k
    · subst hp
      simp [mapRemove, mapGet, h']
    · simp only [mapRemove, if_neg hp]
      by_cases hp' : pk = k'
      · simp [mapGet, hp']
      · simp [mapGet, hp', ih]

theorem mapGet_eq_none_iff {α : Type} (m : List (String × α)) (k : String) :
    mapGet m k = none ↔ k ∉ mapKeys m := by
  induction m with
  | nil => simp [mapGet, mapKeys]
  | cons p t ih =>
    obtain ⟨pk, pv⟩ := p
    by_cases hp : pk = k
    · simp [mapGet, hp, mapKeys]
    · have hp' : ¬ k = pk := fun e => hp e.symm
      simp [mapGet, hp, mapKeys, ih, hp']

theorem mapGet_isSome_of_mem_keys {α : Type} {m : List (String × α)}
    {k : String} (h : k ∈ mapKeys m) : ∃ v, mapGet m k = some v := by
  cases hg : mapGet m k with
  | some v => exact ⟨v, rfl⟩
  | none => exact absurd h ((mapGet_eq_none_iff m k).mp hg)

theorem mapGet_mem {α : Type} {m : List (String × α)} {k : String} {v : α}
    (h : mapGet m k = some v) : (k, v) ∈ m := by
  induction m with
  | nil => simp [mapGet] at h
  | cons p t ih =>
    by_cases hp : p.1 = k
    · simp [mapGet, hp] at h
      subst h hp
      simp
    · simp [mapGet, hp] at h
      simp [ih h]

theorem mem_keys_of_mapGet {α : Type} {m : List (String × α)} {k : String}
    {v : α} (h : mapGet m k = some v) : k ∈ mapKeys m :=
  (mem_mapKeys m k).mpr ⟨v, mapGet_mem h⟩

theorem mapGet_of_mem {α : Type} {m : List (String × α)} {k : String} {v : α}
    (hn : (mapKeys m).Nodup) (h : (k, v) ∈ m) : mapGet m k = some v := by
  induction m with
  | nil => simp at h
  | cons p t ih =>
    obtain ⟨pk, pv⟩ := p
    rw [mapKeys_cons, List.nodup_cons] at hn
    rcases List.mem_cons.mp h with h1 | h1
    · cases h1
      simp [mapGet_cons]
    · have hk : k ∈ mapKeys t := (mem_mapKeys t k).mpr ⟨v, h1⟩
      have hp : ¬ pk = k := fun e => hn.1 (by rw [e]; exact hk)
      rw [mapGet_cons, if_neg hp]
      exact ih hn.2 h1

theorem mapInsert_nil {α : Type} (k : String) (v : α) :
    mapInsert ([] : List (String × α)) k v = [(k, v)] := rfl

theorem mapInsert_cons_eq {α : Type} (t : List (String × α)) (k : String)
    (v pv : α) : mapInsert ((k, pv) :: t) k v = (k, v) :: t := by
  rw [mapInsert]
  simp

theorem mapInsert_cons_ne {α : Type} (t : List (String × α)) (pk k : String)
    (pv v : α) (h : pk ≠ k) :
    mapInsert ((pk, pv) :: t) k v = (pk, pv) :: mapInsert t k v := by
  rw [mapInsert]
  simp [h]

theorem mapRemove_nil {α : Type} (k : String) :
    mapRemove ([] : List (String × α)) k = [] := rfl

theorem mapRemove_cons_eq {α : Type} (t : List (String × α)) (k : String)
    (pv : α) : mapRemove ((k, pv) :: t) k = t := by
  rw [mapRemove]
  simp

theorem mapRemove_cons_ne {α : Type} (t : List (String × α)) (pk k : String)
    (pv : α) (h : pk ≠ k) :
    mapRemove ((pk, pv) :: t) k = (pk, pv) :: mapRemove t k := by
  rw [mapRemove]
  simp [h]

theorem mem_keys_insert {α : Type} (m : List (String × α)) (k a : String)
    (v : α) : a ∈ mapKeys (mapInsert m k v) ↔ a ∈ mapKeys m ∨ a = k := by
  induction m with
  | nil => simp [mapInsert_nil, mapKeys_cons, mapKeys_nil]
  | cons p t ih =>
    obtain ⟨pk, pv⟩ := p
    by_cases hp : pk = k
    · subst hp
      rw [mapInsert_cons_eq, mapKeys_cons, mapKeys_cons]
      simp only [List.mem_cons]
      tauto
    · rw [mapInsert_cons_ne t pk k pv v hp, mapKeys_cons, mapKeys_cons]
      simp only [List.mem_cons, ih]
      tauto

theorem nodup_keys_insert {α : Type} (m : List (String × α)) (k : String)
    (v : α) (h : (mapKeys m).Nodup) : (mapKeys (mapInsert m k v)).Nodup := by
  induction m with
  | nil => simp [mapInsert_nil, mapKeys_cons, mapKeys_nil]
  | cons p t ih =>
    obtain ⟨pk, pv⟩ := p
    rw [mapKeys_cons, List.nodup_cons] at h
    by_cases hp : pk = k
    · subst hp
      rw [mapInsert_cons_eq, mapKeys_cons, List.nodup_cons]
      exact ⟨h.1, h.2⟩
    · rw [mapInsert_cons_ne t pk k pv v hp, mapKeys_cons, List.nodup_cons]
      refine ⟨?_, ih h.2⟩
      intro hc
      rcases (mem_keys_insert t k pk v).mp hc with hc' | hc'
      · exact h.1 hc'
      · exact hp hc'

theorem mem_keys_remove {α : Type} (m : List (String × α)) (k a : String)
    (h : a ∈ mapKeys (mapRemove m k)) : a ∈ mapKeys m := by
  induction m with
  | nil => simpa [mapRemove] using h
  | cons p t ih =>
    obtain ⟨pk, pv⟩ := p
    by_cases hp : pk = k
    · rw [mapRemove] at h
      simp only [if_pos hp] at h
      rw [mapKeys_cons, List.mem_cons]
      exact Or.inr h
    · rw [mapRemove] at h
      simp only [if_neg hp] at h
      rw [mapKeys_cons, List.mem_cons] at h ⊢
      rcases h with h | h
      · exact Or.inl h
      · exact Or.inr (ih h)

theorem nodup_keys_remove {α : Type} (m : List (String × α)) (k : String)
    (h : (mapKeys m).Nodup) : (mapKeys (mapRemove m k)).Nodup := by
  induction m with
  | nil => simpa [mapRemove] using h
  | cons p t ih =>
    obtain ⟨pk, pv⟩ := p
    rw [mapKeys_cons, List.nodup_cons] at h
    by_cases hp : pk = k
    · rw [mapRemove]
      simp only [if_pos hp]
      exact h.2
    · rw [mapRemove]
      simp only [if_neg hp]
      rw [mapKeys_cons, List.nodup_cons]
      exact ⟨fun hc => h.1 (mem_keys_remove t k pk hc), ih h.2⟩

theorem mapGet_remove_self {α : Type} (m : List (String × α)) (k : String)
    (h : (mapKeys m).Nodup) : mapGet (mapRemove m k) k = none := by
  induction m with
  | nil => simp [mapRemove, mapGet]
  | cons p t ih =>
    obtain ⟨pk, pv⟩ := p
    rw [mapKeys_cons, List.nodup_cons] at h
    by_cases hp : pk = k
    · rw [mapRemove]
      simp only [if_pos hp]
      rw [mapGet_eq_none_iff]
      intro hc
      exact h.1 (hp ▸ hc)
    · rw [mapRemove]
      simp only [if_neg hp]
      rw [mapGet_cons, if_neg hp]
      exact ih h.2

theorem mapInsert_mapInsert {α : Type} (m : List (String × α)) (k : String)
    (v w : α) : mapInsert (mapInsert m k v) k w = mapInsert m k w := by
  induction m with
  | nil => simp [mapInsert]
  | cons p t ih =>
    by_cases hp : p.1 = k
    · simp [mapInsert, hp]
    · simp [mapInsert, hp, ih]

theorem mem_dedupFAux {α : Type} [DecidableEq α] (l : List α) :
    ∀ (seen : List α) (a : α), a ∈ dedupFAux seen l ↔ a ∈ l ∧ a ∉ seen := by
  induction l with
  | nil => intro seen a; simp [dedupFAux]
  | cons x t ih =>
    intro seen a
    by_cases hx : x ∈ seen
    · rw [dedupFAux, if_pos hx, ih, List.mem_cons]
      constructor
      · rintro ⟨ha, hs⟩
        exact ⟨Or.inr ha, hs⟩
      · rintro ⟨ha | ha, hs⟩
        · exact absurd (ha ▸ hx) hs
        · exact ⟨ha, hs⟩
    · rw [dedupFAux, if_neg hx, List.mem_cons, ih, List.mem_cons, List.mem_cons]
      by_cases hax : a = x
      · subst hax
        simp [hx]
      · simp [hax]

theorem mem_dedupF {α : Type} [DecidableEq α] (l : List α) (a : α) :
    a ∈ dedupF l ↔ a ∈ l := by
  rw [dedupF, mem_dedupFAux]
  simp

theorem dedupFAux_nodup {α : Type} [DecidableEq α] (l : List α) :
    ∀ seen : List α, (dedupFAux seen l).Nodup := by
  induction l with
  | nil => intro seen; simp [dedupFAux]
  | cons x t ih =>
    intro seen
    by_cases hx : x ∈ seen
    · rw [dedupFAux, if_pos hx]
      exact ih seen
    · rw [dedupFAux, if_neg hx]
      refine List.nodup_cons.mpr ⟨?_, ih (x :: seen)⟩
      intro hc
      have := (mem_dedupFAux t (x :: seen) x).mp hc
      exact this.2 (List.mem_cons_self x seen)

theorem dedupF_nodup {α : Type} [DecidableEq α] (l : List α) :
    (dedupF l).Nodup := dedupFAux_nodup l []

theorem dedupFAux_eq_self {α : Type} [DecidableEq α] (l : List α) :
    ∀ seen : List α, l.Nodup → (∀ a ∈ l, a ∉ seen) →
      dedupFAux seen l = l := by
  induction l with
  | nil => intro seen _ _; rfl
  | cons x t ih =>
    intro seen hn hd
    rw [List.nodup_cons] at hn
    rw [dedupFAux, if_neg (hd x (List.mem_cons_self x t))]
    congr 1
    apply ih (x :: seen) hn.2
    intro a ha
    rw [List.mem_cons]
    rintro (rfl | hc)
    · exact hn.1 ha
    · exact hd a (List.mem_cons_of_mem x ha) hc

theorem dedupF_eq_self {α : Type} [DecidableEq α] {l : List α}
    (h : l.Nodup) : dedupF l = l :=
  dedupFAux_eq_self l [] h (by simp)

theorem setDiff_self_nil {α : Type} [DecidableEq α] (l : List α) :
    setDiff l l = [] := by
  unfold setDiff
  apply List.filter_eq_nil_iff.mpr
  intro a ha
  simp [(mem_dedupF l a).mp ha]

theorem mem_setDiff {α : Type} [DecidableEq α] (l1 l2 : List α) (a : α) :
    a ∈ setDiff l1 l2 ↔ a ∈ l1 ∧ a ∉ l2 := by
  unfold setDiff
  simp [List.mem_filter, mem_dedupF]

theorem mem_setInter {α : Type} [DecidableEq α] (l1 l2 : List α) (a : α) :
    a ∈ setInter l1 l2 ↔ a ∈ l1 ∧ a ∈ l2 := by
  unfold setInter
  simp [List.mem_filter, mem_dedupF]

theorem mem_setUnion {α : Type} [DecidableEq α] (l1 l2 : List α) (a : α) :
    a ∈ setUnion l1 l2 ↔ a ∈ l1 ∨ a ∈ l2 := by
  unfold setUnion
  simp [mem_dedupF]

theorem setUnion_nodup {α : Type} [DecidableEq α] (l1 l2 : List α) :
    (setUnion l1 l2).Nodup := dedupF_nodup _

theorem mapMOpt_eq_some_of_isSome {α β : Type} (f : α → Option β)
    (l : List α) (h : ∀ x ∈ l, (f x).isSome) :
    mapMOpt f l = some (l.filterMap f) := by
  induction l with
  | nil => simp [mapMOpt]
  | cons x t ih =>
    have hx := h x (by simp)
    rcases Option.isSome_iff_exists.mp hx with ⟨y, hy⟩
    rw [mapMOpt, hy, ih (fun a ha => h a (by simp [ha]))]
    simp [List.filterMap_cons, hy]

theorem mapEquiv_refl {α : Type} (m : List (String × α)) : mapEquiv m m :=
  fun _ => rfl

theorem Namespace.equiv_refl (n : Namespace) : n.equiv n :=
  ⟨rfl, mapEquiv_refl _, mapEquiv_refl _, mapEquiv_refl _, mapEquiv_refl _⟩

/-! ## Claim C3 -/

/-- C3 (code bug): for every edit other than `CreateNamespace` whose
target namespace is absent, the spec requires `apply` to fail with a
`NamespaceNotFound` error; the code instead panics — the
`.get_mut(..).unwrap()` on the missing namespace (and `todo!()` for the
`Ddl` edit), modelled as `none`.  The catalog `Error` enum has no
`NamespaceNotFound` variant at all.  This theorem evaluates `apply` on
an empty catalog at each such edit. -/
theorem C3_apply_missing_namespace_panics :
    Catalog.apply emptyCatalog (Edit.CreateTable c3table) = none ∧
    Catalog.apply emptyCatalog (Edit.DropTable c3table) = none ∧
    Catalog.apply emptyCatalog (Edit.ReplaceHttpHandler c3handler) = none ∧
    Catalog.apply emptyCatalog (Edit.DropHttpHandler c3handler) = none ∧
    Catalog.apply emptyCatalog (Edit.ReplaceAuthenticationPolicy c3authn) = none ∧
    Catalog.apply emptyCatalog (Edit.DropAuthenticationPolicy c3authn) = none ∧
    Catalog.apply emptyCatalog (Edit.ReplaceAuthorizationPolicy c3authz) = none ∧
    Catalog.apply emptyCatalog (Edit.DropAuthorizationPolicy c3authz) = none ∧
    Catalog.apply emptyCatalog
      (Edit.Ddl (DdlStatement.AlterTable "t"
        (AlterTableOperation.RenameTable "t2"))) = none := by
  decide

/-! ## Claim C4 -/

/-- C4 (code bug): the spec says `AuthenticationPolicyDecl` /
`AuthorizationPolicyDecl` populate the namespace's policy maps by name;
the compiler's statement loop handles only table and handler
declarations and sends every policy declaration into its
`_ => unreachable!()` arm, a panic (modelled `CompileResult.panic`) —
even though the parser produces exactly these statements.  The policy
maps are never written anywhere in the compiler. -/
theorem C4_compile_policy_decl_panics :
    ScoreCompiler.compile c4pkgAuthn = CompileResult.panic ∧
    ScoreCompiler.compile c4pkgAuthz = CompileResult.panic := by
  decide

/-! ## Claim C7 -/

/-- C7 (code bug): the spec says a `ReplaceHttpHandler` edit carries
the handler's complete new definition including body and policy, but
`diff_namespace` constructs the edit's handler from namespace and name
only (the struct literal in the source does not even provide the
`body`/`policy` fields required by the `HttpHandler` struct): diffing
towards a namespace whose handler has body `SELECT 1` and policy `p`
emits an edit whose handler has empty body and policy. -/
theorem C7_replace_handler_lacks_body_and_policy :
    c7from.WF ∧ c7to.WF ∧
    Diff.diff c7from c7to = some [Edit.ReplaceHttpHandler
      { «namespace» := "n", name := "h", body := "", policy := "" }] ∧
    mapGet c7toNs.http_handlers "h" = some c7handler ∧
    c7handler.body = "SELECT 1" ∧ c7handler.policy = "p" := by
  decide

/-! ## Claim C10 -/

/-- C10: `apply` never removes a namespace entry — whenever it
succeeds, the namespace keys of the result contain all namespace keys
of the input (`CreateNamespace` inserts, every other supported edit
only rewrites the contents of an existing namespace; no edit kind
drops a namespace). -/
theorem C10_apply_never_drops_namespace (c : Catalog) (e : Edit)
    (c' : Catalog) (h : c.apply e = some c') :
    ∀ k, k ∈ mapKeys c.namespaces → k ∈ mapKeys c'.namespaces := by
  intro k hk
  cases e <;> simp only [Catalog.apply] at h
  case CreateNamespace name =>
    injection h with h
    subst h
    exact (mem_keys_insert _ _ _ _).mpr (Or.inl hk)
  case Ddl s => cases h
  all_goals
    rcases Option.map_eq_some'.mp h with ⟨ns, hns, hc⟩
  all_goals
    subst hc
  all_goals
    exact (mem_keys_insert _ _ _ _).mpr (Or.inl hk)

/-- Witness for C10 at a concrete catalog and edit. -/
theorem C10_apply_never_drops_namespace_witness :
    Catalog.apply c10cat (Edit.CreateNamespace "n") = some c10cat' ∧
    (∀ k, k ∈ mapKeys c10cat.namespaces → k ∈ mapKeys c10cat'.namespaces) :=
  ⟨by decide, C10_apply_never_drops_namespace c10cat (Edit.CreateNamespace "n")
    c10cat' (by decide)⟩

/-! ## Claim C2 -/

/-- C2 (code bug): the spec requires diff to be deterministic — equal
(structurally equal) inputs must give the identical ordered edit list —
but the code iterates `HashSet`s built with the hash-randomized default
hasher.  In the embedding the iteration order is the association-list
order: `c2catA` and `c2catB` are structurally equal well-formed
catalogs, yet diffing the empty catalog against them yields the two
edits in opposite orders. -/
theorem C2_diff_order_follows_iteration_order :
    Catalog.equiv c2catA c2catB ∧ c2catA.WF ∧ c2catB.WF ∧
    Diff.diff emptyCatalog c2catA =
      some [Edit.CreateNamespace "a", Edit.CreateNamespace "b"] ∧
    Diff.diff emptyCatalog c2catB =
      some [Edit.CreateNamespace "b", Edit.CreateNamespace "a"] ∧
    Diff.diff emptyCatalog c2catA ≠ Diff.diff emptyCatalog c2catB := by
  refine ⟨?_, by decide, by decide, by decide, by decide, by decide⟩
  intro k
  by_cases ha : k = "a"
  · subst ha
    rw [show mapGet c2catA.namespaces "a" = some (emptyNamespace "a") from by decide,
        show mapGet c2catB.namespaces "a" = some (emptyNamespace "a") from by decide]
    exact Namespace.equiv_refl _
  · by_cases hb : k = "b"
    · subst hb
      rw [show mapGet c2catA.namespaces "b" = some (emptyNamespace "b") from by decide,
          show mapGet c2catB.namespaces "b" = some (emptyNamespace "b") from by decide]
      exact Namespace.equiv_refl _
    · have ha' : ¬ "a" = k := fun e => ha e.symm
      have hb' : ¬ "b" = k := fun e => hb e.symm
      show optRel Namespace.equiv
        (mapGet [("a", emptyNamespace "a"), ("b", emptyNamespace "b")] k)
        (mapGet [("b", emptyNamespace "b"), ("a", emptyNamespace "a")] k)
      rw [mapGet_cons, if_neg ha', mapGet_cons, if_neg hb', mapGet_nil,
          mapGet_cons, if_neg hb', mapGet_cons, if_neg ha', mapGet_nil]
      trivial

/-! ## Claim C1, counterexample -/

/-- C1 counterexample: for the well-formed pair
(`c1from` = one empty namespace `n`, empty catalog), the diff is empty
— no drop-namespace edit kind exists — so applying it to a working copy
of `c1from` returns `c1from` itself, which is not structurally equal to
the empty target catalog. -/
theorem C1_roundtrip_counterexample :
    c1from.WF ∧ emptyCatalog.WF ∧
    Diff.diff c1from emptyCatalog = some [] ∧
    Catalog.applyAll c1from [] = some c1from ∧
    ¬ Catalog.equiv c1from emptyCatalog := by
  refine ⟨by decide, by decide, by decide, rfl, ?_⟩
  intro h
  have hn := h "n"
  rw [show mapGet c1from.namespaces "n" = some (emptyNamespace "n") from by decide,
      show mapGet emptyCatalog.namespaces "n" = none from rfl] at hn
  exact hn

/-! ## Claim C5, counterexample -/

/-- C5 counterexample: compiling a table whose two columns share uid 1
does fail and names the conflicting column, but with the generic
`ScoreError::Error` variant — not the `CompileError` variant the claim
requires. -/
theorem C5_dup_column_error_not_CompileError :
    ScoreCompiler.compile c5dupColPkg =
      CompileResult.err (ScoreError.Error "conflicting column declaration d 1") ∧
    ∀ msg path, ScoreCompiler.compile c5dupColPkg ≠
      CompileResult.err (ScoreError.CompileError msg path) := by
  refine ⟨by decide, ?_⟩
  intro msg path hc
  rw [show ScoreCompiler.compile c5dupColPkg = CompileResult.err
    (ScoreError.Error "conflicting column declaration d 1") from by decide] at hc
  injection hc with h2
  exact ScoreError.noConfusion h2

/-! ## Claim C9 -/

theorem dataTypeOfWord_dtWord (dt : DataType) :
    dataTypeOfWord (dtWord dt) = some dt := by
  cases dt <;> rfl

theorem parse_column_def_spec (c : ColSpec) (h : c.Wf) (ts : List Token) :
    parse_column_def (colSpecToks c ++ ts) = .ok (colSpecDef c, ts) := by
  obtain ⟨h1, h2, h3⟩ := h
  rw [colSpecToks]
  simp only [List.cons_append, List.nil_append]
  rw [parse_column_def]
  simp only [parse_identifier]
  simp only [parse_data_type]
  rw [dataTypeOfWord_dtWord]
  simp only [parse_column_def_uid]
  rw [show strLower "UID" = "uid" from rfl]
  simp only [if_pos rfl]
  simp only [parse_value]
  rw [h2]
  simp only [if_pos h3]
  rfl

theorem parse_column_def_chunk (c : ColSpec) (h : c.Wf) (ts : List Token) :
    parse_column_def (Token.Word c.name :: Token.Word (dtWord c.dt) ::
      Token.Word "UID" :: Token.Number c.uidStr :: ts) = .ok (colSpecDef c, ts) := by
  have hs := parse_column_def_spec c h ts
  rw [colSpecToks] at hs
  simpa using hs

theorem colSpecsToks_cons_head (c : ColSpec) (t : List ColSpec) :
    ∃ l, colSpecsToks (c :: t) = Token.Word c.name :: l := by
  cases t with
  | nil => exact ⟨_, rfl⟩
  | cons c' t' =>
    rw [colSpecsToks]
    exact ⟨_, rfl⟩

theorem colSpecsToks_length (cs : List ColSpec) :
    cs.length ≤ (colSpecsToks cs).length := by
  induction cs with
  | nil => simp [colSpecsToks]
  | cons c t ih =>
    cases t with
    | nil => simp [colSpecsToks, colSpecToks]
    | cons c' t' =>
      rw [colSpecsToks]
      simp only [List.length_append, List.length_cons, colSpecToks,
        List.length_nil] at ih ⊢
      omega

theorem parse_columns_go_spec (cs : List ColSpec) :
    ∀ (fuel : Nat) (acc : List ColumnDef) (rest : List Token),
    cs ≠ [] → (∀ c ∈ cs, c.Wf) → cs.length ≤ fuel →
    parse_columns_go fuel (colSpecsToks cs ++ ([Token.RParen] ++ rest)) acc =
        .ok (acc ++ cs.map colSpecDef, rest) ∧
    parse_columns_go fuel
        (colSpecsToks cs ++ ([Token.Comma, Token.RParen] ++ rest)) acc =
        .ok (acc ++ cs.map colSpecDef, rest) := by
  induction cs with
  | nil => intro fuel acc rest hne; exact absurd rfl hne
  | cons c t ih =>
    intro fuel acc rest hne hwf hfuel
    have hcwf := hwf c (by simp)
    obtain ⟨fuel', rfl⟩ : ∃ f, fuel = f + 1 := by
      cases fuel with
      | zero => simp at hfuel
      | succ f => exact ⟨f, rfl⟩
    have hstart : ∀ l, startsConstraint (Token.Word c.name :: l) = false := by
      intro l
      simp only [startsConstraint]
      simp [hcwf.1]
    cases t with
    | nil =>
      rw [show colSpecsToks [c] = colSpecToks c from rfl, colSpecToks]
      simp only [List.cons_append, List.nil_append]
      constructor
      · rw [parse_columns_go, if_neg (by rw [hstart]; exact Bool.false_ne_true)]
        simp only [peekTok, List.head?]
        rw [parse_column_def_chunk c hcwf]
        simp [consumeTok]
      · rw [parse_columns_go, if_neg (by rw [hstart]; exact Bool.false_ne_true)]
        simp only [peekTok, List.head?]
        rw [parse_column_def_chunk c hcwf]
        simp [consumeTok]
    | cons c' t' =>
      have hwf' : ∀ x ∈ c' :: t', x.Wf := fun x hx => hwf x (by simp [hx])
      have hfuel' : (c' :: t').length ≤ fuel' := by
        simp only [List.length_cons] at hfuel ⊢
        omega
      have ihc := ih fuel' (acc ++ [colSpecDef c]) rest (List.cons_ne_nil c' t')
        hwf' hfuel'
      obtain ⟨hd, hd'⟩ : ∃ l, colSpecsToks (c' :: t') = Token.Word c'.name :: l :=
        colSpecsToks_cons_head c' t'
      rw [show colSpecsToks (c :: c' :: t') =
        colSpecToks c ++ [Token.Comma] ++ colSpecsToks (c' :: t') from rfl,
        colSpecToks]
      rw [hd'] at ihc ⊢
      simp only [List.cons_append, List.nil_append, List.append_assoc] at ihc ⊢
      constructor
      · rw [parse_columns_go, if_neg (by rw [hstart]; exact Bool.false_ne_true)]
        simp only [peekTok, List.head?]
        rw [parse_column_def_chunk c hcwf]
        simp only [consumeTok]
        simp
        rw [ihc.1]
        simp
      · rw [parse_columns_go, if_neg (by rw [hstart]; exact Bool.false_ne_true)]
        simp only [peekTok, List.head?]
        rw [parse_column_def_chunk c hcwf]
        simp only [consumeTok]
        simp
        rw [ihc.2]
        simp

theorem consumeTok_cons_self (t : Token) (r : List Token) :
    consumeTok t (t :: r) = (true, r) := by
  simp [consumeTok]

theorem consumeTok_RParen_word (s : String) (r : List Token) :
    consumeTok Token.RParen (Token.Word s :: r) = (false, Token.Word s :: r) := by
  simp [consumeTok]

theorem parse_columns_empty (rest : List Token) :
    parse_columns (Token.LParen :: Token.RParen :: rest) = .ok ([], rest) := by
  simp [parse_columns, consumeTok]

theorem parse_columns_spec (c : ColSpec) (t : List ColSpec) (rest : List Token)
    (hwf : ∀ x ∈ c :: t, x.Wf) :
    parse_columns (Token.LParen ::
        (colSpecsToks (c :: t) ++ ([Token.RParen] ++ rest))) =
      .ok ((c :: t).map colSpecDef, rest) ∧
    parse_columns (Token.LParen ::
        (colSpecsToks (c :: t) ++ ([Token.Comma, Token.RParen] ++ rest))) =
      .ok ((c :: t).map colSpecDef, rest) := by
  obtain ⟨hd, hd'⟩ := colSpecsToks_cons_head c t
  have hlen := colSpecsToks_length (c :: t)
  rw [hd'] at hlen
  constructor
  · have hg := (parse_columns_go_spec (c :: t)
      ((Token.Word c.name :: (hd ++ ([Token.RParen] ++ rest))).length) [] rest
      (List.cons_ne_nil c t) hwf
      (by simp only [List.length_cons, List.length_append] at hlen ⊢; omega)).1
    rw [hd'] at hg ⊢
    simp only [List.cons_append] at hg ⊢
    simp only [parse_columns, consumeTok_cons_self, Bool.not_true,
      Bool.false_eq_true, if_false, consumeTok_RParen_word]
    rw [hg]
    simp
  · have hg := (parse_columns_go_spec (c :: t)
      ((Token.Word c.name :: (hd ++ ([Token.Comma, Token.RParen] ++ rest))).length)
      [] rest (List.cons_ne_nil c t) hwf
      (by simp only [List.length_cons, List.length_append] at hlen ⊢; omega)).2
    rw [hd'] at hg ⊢
    simp only [List.cons_append] at hg ⊢
    simp only [parse_columns, consumeTok_cons_self, Bool.not_true,
      Bool.false_eq_true, if_false, consumeTok_RParen_word]
    rw [hg]
    simp

theorem parse_statement_table (name uuid : String) (colToks rest : List Token)
    (cols : List ColumnDef) (hu : validUuid uuid = true)
    (hcols : parse_columns (Token.LParen :: (colToks ++ ([Token.RParen] ++ rest))) =
      .ok (cols, rest)) :
    parse_statement (tableDeclToks name uuid colToks rest) =
      .ok (Statement.TableDecl
        { name := name, uuid := strLower uuid, columns := cols }, rest) := by
  rw [tableDeclToks]
  simp only [parse_statement]
  simp only [if_true]
  simp only [parse_table_decl, parse_identifier]
  simp only [parse_table_uuid]
  rw [show strLower "UUID" = "uuid" from rfl]
  rw [if_pos rfl]
  simp only [parse_value]
  rw [show uuidParse uuid = some (strLower uuid) from by rw [uuidParse, if_pos hu]]
  simp only []
  rw [hcols]

/-- C9: `parse` accepts a TABLE declaration with an empty column list,
and accepts a trailing comma before the closing parenthesis of a
non-empty column list, producing the same column sequence as the
declaration without the trailing comma.  Stated on `parse_statement`
over the token stream of a TABLE declaration, quantified over the
table name, a valid quoted uuid, and any non-empty list of well-formed
column chunks. -/
theorem C9_table_decl_column_lists (name uuid : String) (rest : List Token)
    (cs : List ColSpec) (hu : validUuid uuid = true) (hne : cs ≠ [])
    (hwf : ∀ c ∈ cs, c.Wf) :
    parse_statement (tableDeclToks name uuid [] rest) =
      .ok (Statement.TableDecl
        { name := name, uuid := strLower uuid, columns := [] }, rest) ∧
    parse_statement (tableDeclToks name uuid (colSpecsToks cs) rest) =
      .ok (Statement.TableDecl
        { name := name, uuid := strLower uuid,
          columns := cs.map colSpecDef }, rest) ∧
    parse_statement (tableDeclToks name uuid
        (colSpecsToks cs ++ [Token.Comma]) rest) =
      .ok (Statement.TableDecl
        { name := name, uuid := strLower uuid,
          columns := cs.map colSpecDef }, rest) := by
  obtain ⟨c, t, rfl⟩ : ∃ c t, cs = c :: t := by
    cases cs with
    | nil => exact absurd rfl hne
    | cons c t => exact ⟨c, t, rfl⟩
  refine ⟨?_, ?_, ?_⟩
  · exact parse_statement_table name uuid [] rest [] hu
      (by simpa using parse_columns_empty rest)
  · exact parse_statement_table name uuid (colSpecsToks (c :: t)) rest _ hu
      (parse_columns_spec c t rest hwf).1
  · refine parse_statement_table name uuid
      (colSpecsToks (c :: t) ++ [Token.Comma]) rest _ hu ?_
    rw [show (colSpecsToks (c :: t) ++ [Token.Comma]) ++ ([Token.RParen] ++ rest) =
      colSpecsToks (c :: t) ++ ([Token.Comma, Token.RParen] ++ rest) from by simp]
    exact (parse_columns_spec c t rest hwf).2

/-- Witness for C9 at a concrete TABLE declaration with two columns. -/
theorem C9_table_decl_column_lists_witness :
    (validUuid "11111111-1111-1111-1111-111111111111" = true ∧
      c9cols ≠ [] ∧ (∀ c ∈ c9cols, c.Wf)) ∧
    (parse_statement (tableDeclToks "t" "11111111-1111-1111-1111-111111111111"
        [] []) =
      .ok (Statement.TableDecl
        { name := "t", uuid := strLower "11111111-1111-1111-1111-111111111111",
          columns := [] }, []) ∧
    parse_statement (tableDeclToks "t" "11111111-1111-1111-1111-111111111111"
        (colSpecsToks c9cols) []) =
      .ok (Statement.TableDecl
        { name := "t", uuid := strLower "11111111-1111-1111-1111-111111111111",
          columns := c9cols.map colSpecDef }, []) ∧
    parse_statement (tableDeclToks "t" "11111111-1111-1111-1111-111111111111"
        (colSpecsToks c9cols ++ [Token.Comma]) []) =
      .ok (Statement.TableDecl
        { name := "t", uuid := strLower "11111111-1111-1111-1111-111111111111",
          columns := c9cols.map colSpecDef }, [])) :=
  ⟨⟨by decide, by decide, by decide⟩,
    C9_table_decl_column_lists "t" "11111111-1111-1111-1111-111111111111" []
      c9cols (by decide) (by decide) (by decide)⟩

/-! ## Claim C8 -/

/-- Diffing any table against itself yields no edits. -/
theorem diff_table_self (t : Table) : Diff.diff_table t t = [] := by
  rw [Diff.diff_table]
  simp [setDiff_self_nil]
  intro x _
  cases h : t.get_column_by_uid x <;> simp [h]

/-- Diffing any namespace against itself yields no edits. -/
theorem diff_namespace_self (n : Namespace) :
    Diff.diff_namespace n n = some [] := by
  rw [Diff.diff_namespace]
  simp [setDiff_self_nil, mapMOpt]
  intro x _
  cases h : n.get_table_by_uuid x <;> simp [h, diff_table_self]

/-- C8: for every catalog produced by the compiler, diffing it against
itself yields the empty edit list (`diff(compile(src), compile(src))`
is empty).  The compiler produces the empty catalog or a single
namespace keyed by its own name, and `diff_namespace` of a namespace
against itself emits nothing. -/
theorem C8_diff_compile_self (pkg : ScorePkg) (c : Catalog)
    (h : ScoreCompiler.compile pkg = .ok c) : Diff.diff c c = some [] := by
  simp only [ScoreCompiler.compile] at h
  by_cases hf : pkg.files.isEmpty
  · rw [if_pos hf] at h
    injection h with h
    subst h
    decide
  · rw [if_neg hf] at h
    cases hcp : ScoreCompiler.compile_pkg pkg with
    | ok ns =>
      rw [hcp] at h
      injection h with h
      subst h
      simp [Diff.diff, Diff.diff_ns_entry, mapInsert, mapValues, setUnion,
        dedupF, dedupFAux, mapMOpt, mapGet, diff_namespace_self, emptyCatalog]
    | err e =>
      rw [hcp] at h
      exact CompileResult.noConfusion h
    | panic =>
      rw [hcp] at h
      exact CompileResult.noConfusion h

/-- Witness for C8: a package with one table and one handler. -/
theorem C8_diff_compile_self_witness :
    ScoreCompiler.compile c8pkg = CompileResult.ok c8catalog ∧
    Diff.diff c8catalog c8catalog = some [] :=
  ⟨by decide, C8_diff_compile_self c8pkg c8catalog (by decide)⟩

/-! ## Claim C5, amended theorem -/

theorem compileColumns_nodup (cols : List ColumnDef) :
    ∀ (names : List String) (uids : List Nat) (acc : List Column) (out : List Column),
    compileColumns cols names uids acc = .ok out →
    (cols.map (·.uid)).Nodup ∧ ∀ cd ∈ cols, cd.uid ∉ uids := by
  induction cols with
  | nil => intro names uids acc out _; simp
  | cons cd rest ih =>
    intro names uids acc out h
    rw [compileColumns] at h
    split at h
    · exact absurd h (by simp)
    case _ hnot =>
      push_neg at hnot
      have ihr := ih (cd.inner.name :: names) (cd.uid :: uids) _ out h
      refine ⟨?_, ?_⟩
      · rw [List.map_cons, List.nodup_cons]
        refine ⟨?_, ihr.1⟩
        intro hc
        rcases List.mem_map.mp hc with ⟨cd', hcd', he⟩
        have := ihr.2 cd' hcd'
        simp [← he] at this
      · intro cd' hcd'
        rcases List.mem_cons.mp hcd' with rfl | hcd'
        · exact hnot.2
        · intro hc
          exact (ihr.2 cd' hcd') (by simp [hc])

theorem compileStmts_inv (stmts : List Statement) :
    ∀ (path : String) (st st' : CState),
    compileStmts path st stmts = .ok st' →
    ((∀ td ∈ stmtTables stmts, (td.columns.map (·.uid)).Nodup) ∧
     ((stmtTables stmts).map (·.uuid)).Nodup ∧
     (∀ td ∈ stmtTables stmts, td.uuid ∉ st.table_uuids) ∧
     (∀ u ∈ st.table_uuids, u ∈ st'.table_uuids) ∧
     (∀ td ∈ stmtTables stmts, td.uuid ∈ st'.table_uuids)) := by
  induction stmts with
  | nil =>
    intro path st st' h
    rw [compileStmts] at h
    injection h with h
    subst h
    simp [stmtTables]
  | cons s rest ih =>
    intro path st st' h
    rw [compileStmts] at h
    cases hcs : compileStmt path st s with
    | err e => rw [hcs] at h; exact absurd h (by simp)
    | panic => rw [hcs] at h; exact absurd h (by simp)
    | ok st1 =>
      rw [hcs] at h
      have ihr := ih path st1 st' h
      cases s with
      | NamespaceDecl n =>
        simp [compileStmt] at hcs
      | AuthenticationPolicyDecl d =>
        simp [compileStmt] at hcs
      | AuthorizationPolicyDecl d =>
        simp [compileStmt] at hcs
      | HttpHandlerDecl hd =>
        rw [compileStmt] at hcs
        split at hcs
        · simp at hcs
        · injection hcs with hcs
          subst hcs
          rw [show stmtTables (Statement.HttpHandlerDecl hd :: rest) =
            stmtTables rest from rfl]
          exact ihr
      | TableDecl td =>
        rw [compileStmt] at hcs
        split at hcs
        · simp at hcs
        · simp at hcs
        · rename_i cols heq
          split at hcs
          · simp at hcs
          · rename_i hnot
            push_neg at hnot
            injection hcs with hcs
            subst hcs
            have hcols := (compileColumns_nodup td.columns [] [] [] cols heq).1
            rw [show stmtTables (Statement.TableDecl td :: rest) =
              td :: stmtTables rest from rfl]
            obtain ⟨i1, i2, i3, i4, i5⟩ := ihr
            refine ⟨?_, ?_, ?_, ?_, ?_⟩
            · intro td' h'
              rcases List.mem_cons.mp h' with rfl | h'
              · exact hcols
              · exact i1 td' h'
            · rw [List.map_cons, List.nodup_cons]
              refine ⟨?_, i2⟩
              intro hc
              rcases List.mem_map.mp hc with ⟨td', htd', he⟩
              have := i3 td' htd'
              rw [he] at this
              exact this (by simp)
            · intro td' h'
              rcases List.mem_cons.mp h' with rfl | h'
              · exact hnot.2
              · intro hc
                have := i3 td' h'
                simp at this
                exact this.2 hc
            · intro u hu
              exact i4 u (by simp [hu])
            · intro td' h'
              rcases List.mem_cons.mp h' with rfl | h'
              · exact i4 td'.uuid (by simp)
              · exact i5 td' h'

theorem compileFiles_inv (files : List ScoreFile) :
    ∀ (nsname : String) (st st' : CState),
    compileFiles nsname st files = .ok st' →
    ((∀ td ∈ filesTables files, (td.columns.map (·.uid)).Nodup) ∧
     ((filesTables files).map (·.uuid)).Nodup ∧
     (∀ td ∈ filesTables files, td.uuid ∉ st.table_uuids) ∧
     (∀ u ∈ st.table_uuids, u ∈ st'.table_uuids) ∧
     (∀ td ∈ filesTables files, td.uuid ∈ st'.table_uuids)) := by
  induction files with
  | nil =>
    intro nsname st st' h
    rw [compileFiles] at h
    injection h with h
    subst h
    simp [filesTables]
  | cons f rest ih =>
    intro nsname st st' h
    rw [compileFiles] at h
    cases hcf : compileFile nsname st f with
    | err e => rw [hcf] at h; exact absurd h (by simp)
    | panic => rw [hcf] at h; exact absurd h (by simp)
    | ok st1 =>
      rw [hcf] at h
      have ihr := ih nsname st1 st' h
      rw [compileFile] at hcf
      split at hcf
      · simp at hcf
      · rename_i s rest' heq
        split at hcf
        · rename_i name
          split at hcf
          · simp at hcf
          · rename_i hname
            have hA := compileStmts_inv rest' f.path st st1 hcf
            have hdrop : f.statements.drop 1 = rest' := by rw [heq]; rfl
            have hsplit : filesTables (f :: rest) =
                stmtTables rest' ++ filesTables rest := by
              rw [filesTables, List.flatMap_cons, hdrop]
              rfl
            obtain ⟨a1, a2, a3, a4, a5⟩ := hA
            obtain ⟨i1, i2, i3, i4, i5⟩ := ihr
            rw [hsplit]
            refine ⟨?_, ?_, ?_, ?_, ?_⟩
            · intro td h'
              rcases List.mem_append.mp h' with h' | h'
              · exact a1 td h'
              · exact i1 td h'
            · rw [List.map_append, List.nodup_append]
              refine ⟨a2, i2, ?_⟩
              intro u hu1 hu2
              rcases List.mem_map.mp hu1 with ⟨td1, htd1, he1⟩
              rcases List.mem_map.mp hu2 with ⟨td2, htd2, he2⟩
              have h1 : u ∈ st1.table_uuids := he1 ▸ a5 td1 htd1
              have h2 := i3 td2 htd2
              rw [he2] at h2
              exact h2 h1
            · intro td h'
              rcases List.mem_append.mp h' with h' | h'
              · exact a3 td h'
              · intro hc
                exact (i3 td h') (a4 td.uuid hc)
            · intro u hu
              exact i4 u (a4 u hu)
            · intro td h'
              rcases List.mem_append.mp h' with h' | h'
              · exact i4 td.uuid (a5 td h')
              · exact i5 td h'
        · simp at hcf

/-- C5 (amended): a compilation unit containing two TABLE declarations
that share a uuid, or one table with two columns sharing a uid, never
compiles to a catalog.  (The uuid conflict is reported as a
`CompileError` naming the conflicting table; the column-uid conflict is
reported as a generic score error naming the column — see the
counterexample theorem.) -/
theorem C5_duplicate_identity_no_catalog (pkg : ScorePkg)
    (hdup : ¬ ((pkgTables pkg).map (·.uuid)).Nodup ∨
      ∃ td ∈ pkgTables pkg, ¬ (td.columns.map (·.uid)).Nodup) :
    ∀ c, ScoreCompiler.compile pkg ≠ .ok c := by
  intro c hc
  simp only [ScoreCompiler.compile] at hc
  by_cases hf : pkg.files.isEmpty
  · have hnil : pkg.files = [] := List.isEmpty_iff.mp hf
    rw [pkgTables, hnil] at hdup
    simp at hdup
  · rw [if_neg hf] at hc
    cases hcp : ScoreCompiler.compile_pkg pkg with
    | err e => rw [hcp] at hc; exact CompileResult.noConfusion hc
    | panic => rw [hcp] at hc; exact CompileResult.noConfusion hc
    | ok ns =>
      rw [ScoreCompiler.compile_pkg] at hcp
      split at hcp
      · simp at hcp
      · rename_i f0 rest0 heq0
        split at hcp
        · simp at hcp
        · rename_i s0 rest1 heq1
          split at hcp
          · rename_i nsname
            split at hcp
            · rename_i stF heqF
              have inv := compileFiles_inv pkg.files nsname
                { ns := emptyNamespace nsname, table_names := [],
                  table_uuids := [] } stF heqF
              rcases hdup with hdup | ⟨td, htd, hdup⟩
              · exact hdup inv.2.1
              · exact hdup (inv.1 td htd)
            · simp at hcp
            · simp at hcp
          · simp at hcp


/-- Witness for C5 at a unit with two tables sharing uuid `u1`. -/
theorem C5_duplicate_identity_no_catalog_witness :
    (¬ ((pkgTables c5dupUuidPkg).map (·.uuid)).Nodup ∨
      ∃ td ∈ pkgTables c5dupUuidPkg, ¬ (td.columns.map (·.uid)).Nodup) ∧
    ScoreCompiler.compile c5dupUuidPkg =
      CompileResult.err (ScoreError.CompileError
        "conflicting table declaration: t2" "f.score") ∧
    ScoreCompiler.compile c5dupUuidPkg ≠ CompileResult.ok emptyCatalog :=
  ⟨by decide, by decide,
    C5_duplicate_identity_no_catalog c5dupUuidPkg (by decide) emptyCatalog⟩

/-! ## Claim C6 -/

theorem setInter_self {α : Type} [DecidableEq α] (l : List α) (h : l.Nodup) :
    setInter l l = l := by
  unfold setInter
  rw [dedupF_eq_self h]
  apply List.filter_eq_self.mpr
  intro a ha
  simp [ha]

theorem diff_table_rename (t1 : Table) (n2 : String) (hne : t1.name ≠ n2) :
    Diff.diff_table t1 { t1 with name := n2 } =
      [Edit.Ddl (DdlStatement.AlterTable t1.name
        (AlterTableOperation.RenameTable n2))] := by
  rw [Diff.diff_table]
  simp [setDiff_self_nil, hne]
  intro x _
  have hg2 : Table.get_column_by_uid { t1 with name := n2 } x =
    t1.get_column_by_uid x := rfl
  cases h : t1.get_column_by_uid x <;> simp [hg2, h]

theorem flatMap_single {α β : Type} (l : List α) (f : α → List β) (a : α)
    (x : β) (hnd : l.Nodup) (ha : a ∈ l) (hfa : f a = [x])
    (hother : ∀ b ∈ l, b ≠ a → f b = []) : l.flatMap f = [x] := by
  induction l with
  | nil => simp at ha
  | cons b rest ih =>
    rw [List.nodup_cons] at hnd
    rw [List.flatMap_cons]
    by_cases hba : b = a
    · subst hba
      rw [hfa]
      have : rest.flatMap f = [] := by
        apply List.flatMap_eq_nil_iff.mpr
        intro y hy
        exact hother y (List.mem_cons_of_mem b hy)
          (fun e => hnd.1 (e ▸ hy))
      rw [this]
      simp
    · rw [hother b (List.mem_cons_self b rest) hba, List.nil_append]
      rcases List.mem_cons.mp ha with rfl | ha'
      · exact absurd rfl hba
      · exact ih hnd.2 ha' (fun y hy hya =>
          hother y (List.mem_cons_of_mem b hy) hya)

theorem mapMOpt_flatten_nil {g : String → Option (List Edit)}
    {names : List String} (h : ∀ nm ∈ names, g nm = some []) :
    (mapMOpt g names).map List.flatten = some [] := by
  induction names with
  | nil => rfl
  | cons nm rest ih =>
    rw [mapMOpt, h nm (List.mem_cons_self nm rest)]
    have ihr := ih (fun x hx => h x (List.mem_cons_of_mem nm hx))
    cases hmo : mapMOpt g rest with
    | none => rw [hmo] at ihr; simp at ihr
    | some L =>
      rw [hmo] at ihr
      simp at ihr ⊢
      exact ihr

theorem mapMOpt_flatten_single {g : String → Option (List Edit)}
    {names : List String} {k : String} {x : Edit}
    (hnd : names.Nodup) (hk : k ∈ names) (hgk : g k = some [x])
    (hother : ∀ nm ∈ names, nm ≠ k → g nm = some []) :
    (mapMOpt g names).map List.flatten = some [x] := by
  induction names with
  | nil => simp at hk
  | cons nm rest ih =>
    rw [List.nodup_cons] at hnd
    by_cases hnmk : nm = k
    · subst hnmk
      rw [mapMOpt, hgk]
      have hrest : (mapMOpt g rest).map List.flatten = some [] :=
        mapMOpt_flatten_nil (fun y hy => hother y (List.mem_cons_of_mem nm hy)
          (fun e => hnd.1 (e ▸ hy)))
      cases hmo : mapMOpt g rest with
      | none => rw [hmo] at hrest; simp at hrest
      | some L =>
        rw [hmo] at hrest
        simp at hrest ⊢
        exact hrest
    · rw [mapMOpt, hother nm (List.mem_cons_self nm rest) hnmk]
      rcases List.mem_cons.mp hk with rfl | hk'
      · exact absurd rfl hnmk
      · have ihr := ih hnd.2 hk'
          (fun y hy hyk => hother y (List.mem_cons_of_mem nm hy) hyk)
        cases hmo : mapMOpt g rest with
        | none => rw [hmo] at ihr; simp at ihr
        | some L =>
          rw [hmo] at ihr
          simp at ihr ⊢
          exact ihr

theorem diff_namespace_rename (ns1 ns2 : Namespace)
    (tl tr : List (String × Table)) (t1 : Table) (n2 : String)
    (hname : ns1.name = ns2.name) (hwf1 : ns1.WF)
    (hta : ns1.tables = tl ++ (t1.name, t1) :: tr)
    (htb : ns2.tables = tl ++ (n2, { t1 with name := n2 }) :: tr)
    (hhs : ns1.http_handlers = ns2.http_handlers)
    (hne : t1.name ≠ n2) :
    Diff.diff_namespace ns1 ns2 =
      some [Edit.Ddl (DdlStatement.AlterTable t1.name
        (AlterTableOperation.RenameTable n2))] := by
  obtain ⟨w1, w2, w3, w4, w5, w6, w7, w8, w9⟩ := hwf1
  have hvals1 : mapValues ns1.tables = mapValues tl ++ t1 :: mapValues tr := by
    rw [hta]
    simp [mapValues]
  have hvals2 : mapValues ns2.tables =
      mapValues tl ++ { t1 with name := n2 } :: mapValues tr := by
    rw [htb]
    simp [mapValues]
  have hids1 : (mapValues ns1.tables).map (·.uuid) =
      (mapValues tl).map (·.uuid) ++ t1.uuid :: (mapValues tr).map (·.uuid) := by
    rw [hvals1]
    simp
  have hids2 : (mapValues ns2.tables).map (·.uuid) =
      (mapValues tl).map (·.uuid) ++ t1.uuid :: (mapValues tr).map (·.uuid) := by
    rw [hvals2]
    simp
  have hnodupL : ((mapValues tl).map (·.uuid) ++
      t1.uuid :: (mapValues tr).map (·.uuid)).Nodup := by
    rw [← hids1]
    exact w3
  have hndparts := List.nodup_append.mp hnodupL
  have hget1 : ns1.get_table_by_uuid t1.uuid = some t1 := by
    rw [Namespace.get_table_by_uuid, hvals1, List.find?_append]
    have hnone : (mapValues tl).find? (fun t => t.uuid = t1.uuid) = none := by
      rw [List.find?_eq_none]
      intro x hx
      have : x.uuid ∈ (mapValues tl).map (·.uuid) := List.mem_map.mpr ⟨x, hx, rfl⟩
      have hd := hndparts.2.2 this
      simp at hd ⊢
      exact hd.1
    rw [hnone]
    simp
  have hget2 : ns2.get_table_by_uuid t1.uuid = some { t1 with name := n2 } := by
    rw [Namespace.get_table_by_uuid, hvals2, List.find?_append]
    have hnone : (mapValues tl).find? (fun t => t.uuid = t1.uuid) = none := by
      rw [List.find?_eq_none]
      intro x hx
      have : x.uuid ∈ (mapValues tl).map (·.uuid) := List.mem_map.mpr ⟨x, hx, rfl⟩
      have hd := hndparts.2.2 this
      simp at hd ⊢
      exact hd.1
    rw [hnone]
    simp
  have hgeq : ∀ u, u ≠ t1.uuid →
      ns1.get_table_by_uuid u = ns2.get_table_by_uuid u := by
    intro u hu
    rw [Namespace.get_table_by_uuid, Namespace.get_table_by_uuid, hvals1, hvals2,
      List.find?_append, List.find?_append]
    have h1 : (t1 :: mapValues tr).find? (fun t => t.uuid = u) =
        (mapValues tr).find? (fun t => t.uuid = u) := by
      apply List.find?_cons_of_neg
      simp
      intro e
      exact hu e.symm
    have h2 : ({ t1 with name := n2 } :: mapValues tr).find? (fun t => t.uuid = u) =
        (mapValues tr).find? (fun t => t.uuid = u) := by
      apply List.find?_cons_of_neg
      simp
      intro e
      exact hu e.symm
    rw [h1, h2]
  rw [Diff.diff_namespace, if_neg (by simp [hname])]
  rw [hids1, hids2, hhs]
  rw [dedupF_eq_self hnodupL]
  simp only [setDiff_self_nil, List.filterMap_nil, setInter_self _ hnodupL]
  have hflat : ((mapValues tl).map (·.uuid) ++
      t1.uuid :: (mapValues tr).map (·.uuid)).flatMap (fun table_id =>
        match ns1.get_table_by_uuid table_id, ns2.get_table_by_uuid table_id with
        | some a_table, some b_table => Diff.diff_table a_table b_table
        | _, _ => []) =
      [Edit.Ddl (DdlStatement.AlterTable t1.name
        (AlterTableOperation.RenameTable n2))] := by
    apply flatMap_single _ _ t1.uuid _ hnodupL (by simp)
    · rw [hget1, hget2]
      exact diff_table_rename t1 n2 hne
    · intro u _ hu
      rw [hgeq u hu]
      cases h : ns2.get_table_by_uuid u with
      | none => rfl
      | some t => simp [diff_table_self]
  rw [hflat]
  simp [setDiff_self_nil, mapMOpt]

theorem values_names_eq_keys (m : List (String × Namespace))
    (h : ∀ p ∈ m, p.2.name = p.1) :
    (mapValues m).map (·.name) = mapKeys m := by
  induction m with
  | nil => rfl
  | cons p t ih =>
    rw [mapValues_cons, mapKeys_cons, List.map_cons,
      h p (List.mem_cons_self p t),
      ih (fun q hq => h q (List.mem_cons_of_mem p hq))]

/-- C6: for two well-formed catalogs that differ only in one table's
name (same uuid `t1.uuid`, same columns; all other namespaces, tables,
handlers and policies equal), the diff is exactly one rename-table
edit for that table — in particular it contains no create-table or
drop-table edit. -/
theorem C6_rename_table_single_edit
    (c1 c2 : Catalog) (k : String) (ns1 ns2 : Namespace)
    (tl tr : List (String × Table)) (t1 : Table) (n2 : String)
    (hwf1 : c1.WF) (hwf2 : c2.WF)
    (hothers : ∀ key, key ≠ k →
      mapGet c1.namespaces key = mapGet c2.namespaces key)
    (h1 : mapGet c1.namespaces k = some ns1)
    (h2 : mapGet c2.namespaces k = some ns2)
    (hta : ns1.tables = tl ++ (t1.name, t1) :: tr)
    (htb : ns2.tables = tl ++ (n2, { t1 with name := n2 }) :: tr)
    (hhs : ns1.http_handlers = ns2.http_handlers)
    (hap : ns1.authentication_policies = ns2.authentication_policies)
    (hzp : ns1.authorization_policies = ns2.authorization_policies)
    (hne : t1.name ≠ n2) :
    Diff.diff c1 c2 = some [Edit.Ddl (DdlStatement.AlterTable t1.name
      (AlterTableOperation.RenameTable n2))] := by
  have hns1k := hwf1.2 (k, ns1) (mapGet_mem h1)
  have hns2k := hwf2.2 (k, ns2) (mapGet_mem h2)
  have hn1 : (mapValues c1.namespaces).map (·.name) = mapKeys c1.namespaces :=
    values_names_eq_keys _ (fun p hp => (hwf1.2 p hp).1)
  have hn2 : (mapValues c2.namespaces).map (·.name) = mapKeys c2.namespaces :=
    values_names_eq_keys _ (fun p hp => (hwf2.2 p hp).1)
  simp only [Diff.diff]
  rw [hn1, hn2]
  apply mapMOpt_flatten_single (setUnion_nodup _ _)
  · rw [mem_setUnion]
    exact Or.inl (mem_keys_of_mapGet h1)
  · rw [Diff.diff_ns_entry, h1, h2]
    exact diff_namespace_rename ns1 ns2 tl tr t1 n2
      (hns1k.1.trans hns2k.1.symm) hns1k.2 hta htb hhs hne
  · intro nm hnm hnmk
    have heq := hothers nm hnmk
    cases hc2 : mapGet c2.namespaces nm with
    | some n =>
      rw [Diff.diff_ns_entry, heq, hc2]
      exact diff_namespace_self n
    | none =>
      rw [mem_setUnion] at hnm
      rcases hnm with hnm | hnm
      · rcases mapGet_isSome_of_mem_keys hnm with ⟨v, hv⟩
        rw [heq, hc2] at hv
        exact Option.noConfusion hv
      · rcases mapGet_isSome_of_mem_keys hnm with ⟨v, hv⟩
        rw [hc2] at hv
        exact Option.noConfusion hv

/-- Witness for C6: two one-namespace catalogs whose only difference
is the name of the table with uuid `u1`. -/
theorem C6_rename_table_single_edit_witness :
    Diff.diff c6cat1 c6cat2 = some [Edit.Ddl (DdlStatement.AlterTable "t1"
      (AlterTableOperation.RenameTable "t2"))] := by
  have h := C6_rename_table_single_edit c6cat1 c6cat2 "n"
    ({ emptyNamespace "n" with tables := [("t1", c6table1)] })
    ({ emptyNamespace "n" with tables := [("t2", c6table2)] })
    [] [] c6table1 "t2" (by decide) (by decide)
    (fun key hk => by
      have h' : ¬ "n" = key := fun e => hk e.symm
      simp only [c6cat1, c6cat2]
      rw [mapGet_cons, mapGet_cons, if_neg h', if_neg h'])
    (by decide) (by decide) (by decide) (by decide) (by decide)
    (by decide) (by decide) (by decide)
  simpa using h


theorem mapInsert_get_self {α : Type} {m : List (String × α)} {k : String}
    {v : α} (h : mapGet m k = some v) : mapInsert m k v = m := by
  induction m with
  | nil => simp [mapGet] at h
  | cons p t ih =>
    obtain ⟨pk, pv⟩ := p
    by_cases hp : pk = k
    · subst hp
      rw [mapGet_cons, if_pos rfl] at h
      injection h with h
      subst h
      rw [mapInsert_cons_eq]
    · rw [mapGet_cons, if_neg hp] at h
      rw [mapInsert_cons_ne t pk k pv v hp, ih h]

theorem apply_entity (c : Catalog) (e : Edit) (k : String) (ns : Namespace)
    (he : editNs e = some k) (hc : mapGet c.namespaces k = some ns) :
    c.apply e = some { namespaces := mapInsert c.namespaces k (nsStep e ns) } := by
  cases e with
  | CreateNamespace n => simp [editNs] at he
  | Ddl s => simp [editNs] at he
  | CreateTable t =>
    simp [editNs] at he
    subst he
    simp [Catalog.apply, hc, nsStep]
  | DropTable t =>
    simp [editNs] at he
    subst he
    simp [Catalog.apply, hc, nsStep]
  | ReplaceHttpHandler h =>
    simp [editNs] at he
    subst he
    simp [Catalog.apply, hc, nsStep]
  | DropHttpHandler h =>
    simp [editNs] at he
    subst he
    simp [Catalog.apply, hc, nsStep]
  | ReplaceAuthenticationPolicy p =>
    simp [editNs] at he
    subst he
    simp [Catalog.apply, hc, nsStep]
  | DropAuthenticationPolicy p =>
    simp [editNs] at he
    subst he
    simp [Catalog.apply, hc, nsStep]
  | ReplaceAuthorizationPolicy p =>
    simp [editNs] at he
    subst he
    simp [Catalog.apply, hc, nsStep]
  | DropAuthorizationPolicy p =>
    simp [editNs] at he
    subst he
    simp [Catalog.apply, hc, nsStep]

theorem applyAll_block (es : List Edit) :
    ∀ (c : Catalog) (k : String) (ns : Namespace),
    (∀ e ∈ es, editNs e = some k) → mapGet c.namespaces k = some ns →
    Catalog.applyAll c es =
      some { namespaces := mapInsert c.namespaces k
              (es.foldl (fun n e => nsStep e n) ns) } := by
  induction es with
  | nil =>
    intro c k ns _ hc
    rw [List.foldl_nil, Catalog.applyAll, mapInsert_get_self hc]
  | cons e es ih =>
    intro c k ns hall hc
    rw [Catalog.applyAll, apply_entity c e k ns (hall e (by simp)) hc]
    simp only []
    rw [ih _ k (nsStep e ns) (fun x hx => hall x (by simp [hx]))
      (mapGet_insert_self _ _ _)]
    rw [mapInsert_mapInsert]
    rfl

theorem mapGet_removeBy {α : Type} (f : α → String) (vs : List α) :
    ∀ (m : List (String × α)) (k : String), (mapKeys m).Nodup →
    mapGet (removeBy f m vs) k =
      if k ∈ vs.map f then none else mapGet m k := by
  induction vs with
  | nil => intro m k _; simp [removeBy]
  | cons v vs ih =>
    intro m k hnd
    rw [show removeBy f m (v :: vs) = removeBy f (mapRemove m (f v)) vs from rfl]
    rw [ih _ k (nodup_keys_remove m (f v) hnd)]
    by_cases hk : k ∈ vs.map f
    · simp [hk]
    · by_cases hkv : k = f v
      · subst hkv
        simp [hk, mapGet_remove_self m _ hnd]
      · have : k ∈ (v :: vs).map f ↔ k ∈ vs.map f ∨ k = f v := by
          simp [or_comm]
        simp only [hk, if_false]
        rw [mapGet_remove_ne m (f v) k hkv]
        rw [if_neg (by rw [this]; rintro (h | h); exact hk h; exact hkv h)]

theorem mapGet_insertBy {α : Type} (f : α → String) (vs : List α) :
    ∀ (m : List (String × α)) (k : String), (vs.map f).Nodup →
    mapGet (insertBy f m vs) k =
      match vs.find? (fun v => f v = k) with
      | some v => some v
      | none => mapGet m k := by
  induction vs with
  | nil => intro m k _; simp [insertBy]
  | cons v vs ih =>
    intro m k hnd
    rw [List.map_cons, List.nodup_cons] at hnd
    rw [show insertBy f m (v :: vs) = insertBy f (mapInsert m (f v) v) vs from rfl]
    rw [ih _ k hnd.2]
    by_cases hfv : f v = k
    · subst hfv
      rw [List.find?_cons_of_pos _ (by simp)]
      have hnone : vs.find? (fun w => f w = f v) = none := by
        rw [List.find?_eq_none]
        intro x hx
        simp
        intro hc
        exact hnd.1 (List.mem_map.mpr ⟨x, hx, hc⟩)
      rw [hnone]
      simp only []
      rw [mapGet_insert_self]
    · rw [List.find?_cons_of_neg _ (by simp [hfv])]
      cases hf : vs.find? (fun w => f w = k) with
      | some w => rfl
      | none =>
        simp only []
        exact mapGet_insert_ne m (f v) k v (fun e => hfv e.symm)

theorem setDiff_nodup {α : Type} [DecidableEq α] (l1 l2 : List α) :
    (setDiff l1 l2).Nodup :=
  List.Nodup.filter _ (dedupF_nodup l1)

theorem mapGet_of_value_mem {α : Type} (f : α → String)
    (m : List (String × α)) (hk : (mapKeys m).Nodup)
    (hn : ∀ p ∈ m, f p.2 = p.1) {t : α} (ht : t ∈ mapValues m) :
    mapGet m (f t) = some t := by
  rcases (mem_mapValues m t).mp ht with ⟨key, hkey⟩
  have := hn (key, t) hkey
  simp at this
  subst this
  exact mapGet_of_mem hk hkey

theorem find?_uuid_some {m : List (String × Table)} {u : String} {t : Table}
    (h : (mapValues m).find? (fun t => t.uuid = u) = some t) :
    t.uuid = u ∧ t ∈ mapValues m := by
  have h1 := List.find?_some h
  simp at h1
  exact ⟨h1, List.mem_of_find?_eq_some h⟩

theorem find?_uuid_of_mem {m : List (String × Table)}
    (hu : ((mapValues m).map (·.uuid)).Nodup) {t : Table}
    (ht : t ∈ mapValues m) :
    (mapValues m).find? (fun x => x.uuid = t.uuid) = some t := by
  cases hf : (mapValues m).find? (fun x => x.uuid = t.uuid) with
  | none =>
    rw [List.find?_eq_none] at hf
    exact absurd (by simp) (hf t ht)
  | some t' =>
    obtain ⟨he, hm⟩ := find?_uuid_some hf
    have := List.inj_on_of_nodup_map hu hm ht he
    rw [this]

theorem dropped_mem {F T : List (String × Table)}
    (huF : ((mapValues F).map (·.uuid)).Nodup) {t : Table} :
    t ∈ (setDiff ((mapValues F).map (·.uuid)) ((mapValues T).map (·.uuid))).filterMap
      (fun u => (mapValues F).find? (fun x => x.uuid = u)) ↔
    t ∈ mapValues F ∧ t.uuid ∉ (mapValues T).map (·.uuid) := by
  constructor
  · intro h
    rcases List.mem_filterMap.mp h with ⟨u, hu, hf⟩
    obtain ⟨he, hm⟩ := find?_uuid_some hf
    rw [mem_setDiff] at hu
    exact ⟨hm, he ▸ hu.2⟩
  · rintro ⟨hm, hnb⟩
    apply List.mem_filterMap.mpr
    refine ⟨t.uuid, ?_, find?_uuid_of_mem huF hm⟩
    rw [mem_setDiff]
    exact ⟨List.mem_map.mpr ⟨t, hm, rfl⟩, hnb⟩

theorem names_nodup_of_uuid_filterMap (m : List (String × Table))
    (hk : (mapKeys m).Nodup) (hn : ∀ p ∈ m, p.2.name = p.1)
    (l : List String) (hl : l.Nodup) :
    ((l.filterMap (fun u => (mapValues m).find? (fun t => t.uuid = u))).map
      (·.name)).Nodup := by
  induction l with
  | nil => simp
  | cons u l' ih =>
    rw [List.nodup_cons] at hl
    rw [List.filterMap_cons]
    cases hf : (mapValues m).find? (fun t => t.uuid = u) with
    | none => exact ih hl.2
    | some t =>
      obtain ⟨he, hm⟩ := find?_uuid_some hf
      rw [List.map_cons, List.nodup_cons]
      refine ⟨?_, ih hl.2⟩
      intro hc
      rcases List.mem_map.mp hc with ⟨t', ht', hne⟩
      rcases List.mem_filterMap.mp ht' with ⟨u', hu', hf'⟩
      obtain ⟨he', hm'⟩ := find?_uuid_some hf'
      have h1 := mapGet_of_value_mem (·.name) m hk hn hm
      have h2 := mapGet_of_value_mem (·.name) m hk hn hm'
      simp only [] at h1 h2
      rw [show t'.name = t.name from hne] at h2
      rw [h1] at h2
      injection h2 with h2
      rw [← h2, he] at he'
      exact hl.1 (he' ▸ hu')

theorem tables_phase (F T : List (String × Table))
    (hkF : (mapKeys F).Nodup) (hnF : ∀ p ∈ F, p.2.name = p.1)
    (huF : ((mapValues F).map (·.uuid)).Nodup)
    (hkT : (mapKeys T).Nodup) (hnT : ∀ p ∈ T, p.2.name = p.1)
    (huT : ((mapValues T).map (·.uuid)).Nodup)
    (hshared : ∀ tF ∈ mapValues F, ∀ tT ∈ mapValues T,
      tF.uuid = tT.uuid → tF = tT)
    (k : String) :
    mapGet (insertBy (fun t => t.name)
      (removeBy (fun t => t.name) F
        ((setDiff ((mapValues F).map (·.uuid)) ((mapValues T).map (·.uuid))).filterMap
          (fun u => (mapValues F).find? (fun x => x.uuid = u))))
      ((setDiff ((mapValues T).map (·.uuid)) ((mapValues F).map (·.uuid))).filterMap
        (fun u => (mapValues T).find? (fun x => x.uuid = u)))) k = mapGet T k := by
  set dts := (setDiff ((mapValues F).map (·.uuid))
    ((mapValues T).map (·.uuid))).filterMap
      (fun u => (mapValues F).find? (fun x => x.uuid = u)) with hdts
  set cts := (setDiff ((mapValues T).map (·.uuid))
    ((mapValues F).map (·.uuid))).filterMap
      (fun u => (mapValues T).find? (fun x => x.uuid = u)) with hcts
  have hctsnames : (cts.map (fun t => t.name)).Nodup :=
    names_nodup_of_uuid_filterMap T hkT hnT _ (setDiff_nodup _ _)
  rw [mapGet_insertBy (fun t => t.name) cts _ k hctsnames]
  cases hfc : cts.find? (fun v => v.name = k) with
  | some t =>
    have hts := List.find?_some hfc
    simp at hts
    have hmem : t ∈ cts := List.mem_of_find?_eq_some hfc
    have htv := ((dropped_mem huT).mp hmem).1
    have h2 := mapGet_of_value_mem (fun t => t.name) T hkT hnT htv
    simp only [] at h2
    rw [hts] at h2
    rw [h2]
  | none =>
    have hfcnone : ∀ t ∈ cts, t.name ≠ k := by
      rw [List.find?_eq_none] at hfc
      intro t ht
      have := hfc t ht
      simpa using this
    simp only []
    rw [mapGet_removeBy (fun t => t.name) dts F k hkF]
    by_cases hkd : k ∈ dts.map (fun t => t.name)
    · rw [if_pos hkd]
      cases hT : mapGet T k with
      | none => rfl
      | some tT =>
        exfalso
        have htTm := mapGet_mem hT
        have htTv : tT ∈ mapValues T := (mem_mapValues T tT).mpr ⟨k, htTm⟩
        have htTname : tT.name = k := hnT (k, tT) htTm
        by_cases hA : tT.uuid ∈ (mapValues F).map (·.uuid)
        · rcases List.mem_map.mp hA with ⟨tF, htFv, he⟩
          have heq := hshared tF htFv tT htTv he
          rcases List.mem_map.mp hkd with ⟨td, htd, hdname⟩
          have hdd := (dropped_mem huF).mp htd
          have h1 := mapGet_of_value_mem (fun t => t.name) F hkF hnF hdd.1
          have h2 := mapGet_of_value_mem (fun t => t.name) F hkF hnF htFv
          simp only [] at h1 h2
          rw [hdname] at h1
          rw [heq, htTname] at h2
          rw [h1] at h2
          injection h2 with h2
          have hmemT : tT.uuid ∈ (mapValues T).map (·.uuid) :=
            List.mem_map.mpr ⟨tT, htTv, rfl⟩
          rw [h2] at hdd
          exact hdd.2 hmemT
        · have : tT ∈ cts := (dropped_mem huT).mpr ⟨htTv, hA⟩
          exact hfcnone tT this htTname
    · rw [if_neg hkd]
      cases hF : mapGet F k with
      | some tF =>
        have htFm := mapGet_mem hF
        have htFv : tF ∈ mapValues F := (mem_mapValues F tF).mpr ⟨k, htFm⟩
        have htFname : tF.name = k := hnF (k, tF) htFm
        by_cases hB : tF.uuid ∈ (mapValues T).map (·.uuid)
        · rcases List.mem_map.mp hB with ⟨tT, htTv, he⟩
          have heq := hshared tF htFv tT htTv he.symm
          have h2 := mapGet_of_value_mem (fun t => t.name) T hkT hnT htTv
          simp only [] at h2
          rw [← heq, htFname] at h2
          exact h2.symm
        · exfalso
          have : tF ∈ dts := (dropped_mem huF).mpr ⟨htFv, hB⟩
          exact hkd (List.mem_map.mpr ⟨tF, this, htFname⟩)
      | none =>
        cases hT : mapGet T k with
        | none => rfl
        | some tT =>
          exfalso
          have htTm := mapGet_mem hT
          have htTv : tT ∈ mapValues T := (mem_mapValues T tT).mpr ⟨k, htTm⟩
          have htTname : tT.name = k := hnT (k, tT) htTm
          by_cases hA : tT.uuid ∈ (mapValues F).map (·.uuid)
          · rcases List.mem_map.mp hA with ⟨tF, htFv, he⟩
            have heq := hshared tF htFv tT htTv he
            have h2 := mapGet_of_value_mem (fun t => t.name) F hkF hnF htFv
            simp only [] at h2
            rw [heq, htTname] at h2
            rw [hF] at h2
            exact Option.noConfusion h2
          · have : tT ∈ cts := (dropped_mem huT).mpr ⟨htTv, hA⟩
            exact hfcnone tT this htTname

theorem filterMap_map_comp {α β γ : Type} (l : List α) (g : α → Option β)
    (f : β → γ) :
    l.filterMap (fun x => (g x).map f) = (l.filterMap g).map f := by
  induction l with
  | nil => rfl
  | cons x t ih =>
    rw [List.filterMap_cons, List.filterMap_cons]
    cases hg : g x with
    | none => simpa using ih
    | some y => simp [ih]

theorem values_f_eq_keys {α : Type} (f : α → String)
    (m : List (String × α)) (h : ∀ p ∈ m, f p.2 = p.1) :
    (mapValues m).map f = mapKeys m := by
  induction m with
  | nil => rfl
  | cons p t ih =>
    rw [mapValues_cons, mapKeys_cons, List.map_cons,
      h p (List.mem_cons_self p t),
      ih (fun q hq => h q (List.mem_cons_of_mem p hq))]

theorem mapMOpt_eq_map {α β : Type} (f : α → Option β) (g : α → β)
    (l : List α) (h : ∀ x ∈ l, f x = some (g x)) :
    mapMOpt f l = some (l.map g) := by
  induction l with
  | nil => rfl
  | cons x t ih =>
    rw [mapMOpt, h x (by simp), ih (fun a ha => h a (by simp [ha]))]
    rfl

theorem foldl_nsStep_dropTables (ts : List Table) :
    ∀ ns : Namespace,
    List.foldl (fun n e => nsStep e n) ns (ts.map Edit.DropTable) =
      { ns with tables := removeBy (fun t => t.name) ns.tables ts } := by
  induction ts with
  | nil => intro ns; rfl
  | cons t ts ih =>
    intro ns
    rw [List.map_cons, List.foldl_cons, ih]
    rfl

theorem foldl_nsStep_createTables (ts : List Table) :
    ∀ ns : Namespace,
    List.foldl (fun n e => nsStep e n) ns (ts.map Edit.CreateTable) =
      { ns with tables := insertBy (fun t => t.name) ns.tables ts } := by
  induction ts with
  | nil => intro ns; rfl
  | cons t ts ih =>
    intro ns
    rw [List.map_cons, List.foldl_cons, ih]
    rfl

theorem foldl_nsStep_dropHandlers (ks : List String) (nn : String) :
    ∀ ns : Namespace,
    List.foldl (fun n e => nsStep e n) ns
      (ks.map (fun k => Edit.DropHttpHandler (mkStub nn k))) =
      { ns with http_handlers := removeKeys ns.http_handlers ks } := by
  induction ks with
  | nil => intro ns; rfl
  | cons k ks ih =>
    intro ns
    rw [List.map_cons, List.foldl_cons, ih]
    rfl

theorem foldl_nsStep_createHandlers (ks : List String) (nn : String) :
    ∀ ns : Namespace,
    List.foldl (fun n e => nsStep e n) ns
      (ks.map (fun k => Edit.ReplaceHttpHandler (mkStub nn k))) =
      { ns with http_handlers := insertStubs nn ns.http_handlers ks } := by
  induction ks with
  | nil => intro ns; rfl
  | cons k ks ih =>
    intro ns
    rw [List.map_cons, List.foldl_cons, ih]
    rfl

theorem mapGet_removeKeys {α : Type} (ks : List String) :
    ∀ (m : List (String × α)) (k : String), (mapKeys m).Nodup →
    mapGet (removeKeys m ks) k = if k ∈ ks then none else mapGet m k := by
  induction ks with
  | nil => intro m k _; simp [removeKeys]
  | cons k' ks ih =>
    intro m k hnd
    rw [show removeKeys m (k' :: ks) = removeKeys (mapRemove m k') ks from rfl]
    rw [ih _ k (nodup_keys_remove m k' hnd)]
    by_cases hk : k ∈ ks
    · simp [hk]
    · by_cases hkk : k = k'
      · subst hkk
        simp [hk, mapGet_remove_self m _ hnd]
      · rw [if_neg hk, if_neg (by simp [hk, hkk]),
          mapGet_remove_ne m k' k hkk]

theorem mapGet_insertStubs (nn : String) (ks : List String) :
    ∀ (m : List (String × HttpHandler)) (k : String),
    mapGet (insertStubs nn m ks) k =
      if k ∈ ks then some (mkStub nn k) else mapGet m k := by
  induction ks with
  | nil => intro m k; simp [insertStubs]
  | cons k' ks ih =>
    intro m k
    rw [show insertStubs nn m (k' :: ks) =
      insertStubs nn (mapInsert m k' (mkStub nn k')) ks from rfl]
    rw [ih]
    by_cases hk : k ∈ ks
    · simp [hk]
    · by_cases hkk : k = k'
      · subst hkk
        simp [hk, mapGet_insert_self]
      · rw [if_neg hk, if_neg (by simp [hk, hkk]),
          mapGet_insert_ne m k' k _ hkk]

theorem mapEquiv_of_pointwise {α : Type} (m1 m2 : List (String × α))
    (h1 : ∀ p ∈ m1, mapGet m2 p.1 = some p.2)
    (h2 : ∀ p ∈ m2, mapGet m1 p.1 = some p.2) : mapEquiv m1 m2 := by
  intro k
  cases hg : mapGet m1 k with
  | some v => exact (h1 (k, v) (mapGet_mem hg)).symm
  | none =>
    cases hg2 : mapGet m2 k with
    | none => rfl
    | some w =>
      have := h2 (k, w) (mapGet_mem hg2)
      simp only [] at this
      rw [hg] at this
      exact this

theorem emptyNamespace_WF (n : String) : (emptyNamespace n).WF := by
  refine ⟨?_, ?_, ?_, ?_, ?_, ?_, ?_, ?_, ?_⟩ <;> simp [emptyNamespace, mapKeys, mapValues]

theorem applyAll_append (l1 l2 : List Edit) :
    ∀ c : Catalog, Catalog.applyAll c (l1 ++ l2) =
      match Catalog.applyAll c l1 with
      | some c' => Catalog.applyAll c' l2
      | none => none := by
  induction l1 with
  | nil => intro c; rfl
  | cons e es ih =>
    intro c
    rw [List.cons_append, Catalog.applyAll, Catalog.applyAll]
    cases c.apply e with
    | none => rfl
    | some c' => exact ih c'

theorem handlers_phase (A B : List (String × HttpHandler)) (nnB : String)
    (hkA : (mapKeys A).Nodup)
    (hkB : (mapKeys B).Nodup) (hnB : ∀ p ∈ B, p.2.name = p.1)
    (hshared : ∀ pA ∈ A, ∀ pB ∈ B, pA.1 = pB.1 → pA.2 = pB.2)
    (hnew : ∀ p ∈ B, mapGet A p.1 = none →
      p.2.«namespace» = nnB ∧ p.2.body = "" ∧ p.2.policy = "")
    (k : String) :
    mapGet (insertStubs nnB
      (removeKeys A (setDiff (mapKeys A) (mapKeys B)))
      (setDiff (mapKeys B) (mapKeys A))) k = mapGet B k := by
  rw [mapGet_insertStubs]
  by_cases hkC : k ∈ setDiff (mapKeys B) (mapKeys A)
  · rw [if_pos hkC]
    obtain ⟨hinB, hninA⟩ := (mem_setDiff _ _ k).mp hkC
    rcases mapGet_isSome_of_mem_keys hinB with ⟨h, hB⟩
    have hmem := mapGet_mem hB
    have hname := hnB (k, h) hmem
    have hnone : mapGet A k = none := (mapGet_eq_none_iff A k).mpr hninA
    obtain ⟨hns, hb, hp⟩ := hnew (k, h) hmem hnone
    simp only [] at hname hns hb hp
    rw [hB]
    cases h with
    | mk ns nm bd pl =>
      simp only [] at hname hns hb hp
      rw [mkStub, hname, hns, hb, hp]
  · rw [if_neg hkC]
    rw [mapGet_removeKeys _ _ _ hkA]
    by_cases hkD : k ∈ setDiff (mapKeys A) (mapKeys B)
    · rw [if_pos hkD]
      obtain ⟨hinA, hninB⟩ := (mem_setDiff _ _ k).mp hkD
      exact ((mapGet_eq_none_iff B k).mpr hninB).symm
    · rw [if_neg hkD]
      by_cases hmA : k ∈ mapKeys A
      · have hmB : k ∈ mapKeys B := by
          by_contra hc
          exact hkD ((mem_setDiff _ _ k).mpr ⟨hmA, hc⟩)
        rcases mapGet_isSome_of_mem_keys hmA with ⟨a, hA⟩
        rcases mapGet_isSome_of_mem_keys hmB with ⟨b, hB⟩
        rw [hA, hB]
        have := hshared (k, a) (mapGet_mem hA) (k, b) (mapGet_mem hB) rfl
        simp only [] at this
        rw [this]
      · have hmB : k ∉ mapKeys B := by
          intro hc
          exact hkC ((mem_setDiff _ _ k).mpr ⟨hc, hmA⟩)
        rw [(mapGet_eq_none_iff A k).mpr hmA,
          (mapGet_eq_none_iff B k).mpr hmB]

theorem nsBlock_targets (nsA nsB : Namespace)
    (hTA : ∀ p ∈ nsA.tables, p.2.«namespace» = nsA.name)
    (hTB : ∀ p ∈ nsB.tables, p.2.«namespace» = nsB.name)
    (hname : nsA.name = nsB.name) :
    ∀ e ∈ nsBlockEdits nsA nsB, editNs e = some nsA.name := by
  intro e he
  simp only [nsBlockEdits, List.mem_append] at he
  rcases he with ((hd | hc) | hD) | hC
  · rcases List.mem_map.mp hd with ⟨t, ht, rfl⟩
    rcases List.mem_filterMap.mp ht with ⟨u, _, hf⟩
    rw [Namespace.get_table_by_uuid] at hf
    have hm := List.mem_of_find?_eq_some hf
    rcases (mem_mapValues _ t).mp hm with ⟨key, hkey⟩
    have := hTA (key, t) hkey
    simp only [] at this
    simp [editNs, this]
  · rcases List.mem_map.mp hc with ⟨t, ht, rfl⟩
    rcases List.mem_filterMap.mp ht with ⟨u, _, hf⟩
    rw [Namespace.get_table_by_uuid] at hf
    have hm := List.mem_of_find?_eq_some hf
    rcases (mem_mapValues _ t).mp hm with ⟨key, hkey⟩
    have := hTB (key, t) hkey
    simp only [] at this
    simp [editNs, this, hname]
  · rcases List.mem_map.mp hD with ⟨k, _, rfl⟩
    simp [editNs, mkStub]
  · rcases List.mem_map.mp hC with ⟨k, _, rfl⟩
    simp [editNs, mkStub, hname]

theorem nsBlock_equiv (nsA nsB : Namespace)
    (hwfA : nsA.WF) (hwfB : nsB.WF) (hname : nsA.name = nsB.name)
    (hcond : SharedNamespaceCond nsA nsB) :
    Namespace.equiv
      ((nsBlockEdits nsA nsB).foldl (fun n e => nsStep e n) nsA) nsB := by
  obtain ⟨hkTA, hTA, huA, hkHA, hHA, hkPA, hPA, hkZA, hZA⟩ := hwfA
  obtain ⟨hkTB, hTB, huB, hkHB, hHB, hkPB, hPB, hkZB, hZB⟩ := hwfB
  obtain ⟨hsT, hsH, hnH, hp1, hp2, hz1, hz2⟩ := hcond
  simp only [nsBlockEdits]
  rw [List.foldl_append, List.foldl_append, List.foldl_append]
  rw [foldl_nsStep_dropTables, foldl_nsStep_createTables,
    foldl_nsStep_dropHandlers, foldl_nsStep_createHandlers]
  refine ⟨hname, ?_, ?_, ?_, ?_⟩
  · intro k
    simp only []
    exact tables_phase nsA.tables nsB.tables hkTA
      (fun p hp => (hTA p hp).1) huA hkTB (fun p hp => (hTB p hp).1) huB
      hsT k
  · intro k
    simp only []
    exact handlers_phase nsA.http_handlers nsB.http_handlers nsB.name
      hkHA hkHB (fun p hp => (hHB p hp).1) hsH
      (fun p hp hn => ⟨(hHB p hp).2, (hnH p hp hn).1, (hnH p hp hn).2⟩) k
  · intro k
    simp only []
    exact mapEquiv_of_pointwise _ _ hp1 hp2 k
  · intro k
    simp only []
    exact mapEquiv_of_pointwise _ _ hz1 hz2 k

theorem nsBlock_diff (nsA nsB : Namespace)
    (hwfA : nsA.WF) (hwfB : nsB.WF) (hname : nsA.name = nsB.name)
    (hcond : SharedNamespaceCond nsA nsB) :
    Diff.diff_namespace nsA nsB = some (nsBlockEdits nsA nsB) := by
  obtain ⟨hkTA, hTA, huA, hkHA, hHA, hkPA, hPA, hkZA, hZA⟩ := hwfA
  obtain ⟨hkTB, hTB, huB, hkHB, hHB, hkPB, hPB, hkZB, hZB⟩ := hwfB
  obtain ⟨hsT, hsH, hnH, hp1, hp2, hz1, hz2⟩ := hcond
  have hnamesA : (mapValues nsA.http_handlers).map (·.name) =
      mapKeys nsA.http_handlers :=
    values_f_eq_keys _ _ (fun p hp => (hHA p hp).1)
  have hnamesB : (mapValues nsB.http_handlers).map (·.name) =
      mapKeys nsB.http_handlers :=
    values_f_eq_keys _ _ (fun p hp => (hHB p hp).1)
  have hflat : (setInter ((mapValues nsA.tables).map (·.uuid))
      ((mapValues nsB.tables).map (·.uuid))).flatMap (fun table_id =>
        match nsA.get_table_by_uuid table_id, nsB.get_table_by_uuid table_id with
        | some a_table, some b_table => Diff.diff_table a_table b_table
        | _, _ => []) = [] := by
    apply List.flatMap_eq_nil_iff.mpr
    intro u _
    cases hga : nsA.get_table_by_uuid u with
    | none => rfl
    | some tA =>
      cases hgb : nsB.get_table_by_uuid u with
      | none => rfl
      | some tB =>
        rw [Namespace.get_table_by_uuid] at hga hgb
        obtain ⟨heA, hmA⟩ := find?_uuid_some hga
        obtain ⟨heB, hmB⟩ := find?_uuid_some hgb
        have : tA = tB := hsT tA hmA tB hmB (heA.trans heB.symm)
        subst this
        simp [diff_table_self]
  have hhd : mapMOpt (fun handler_name =>
      (nsA.get_http_handler_by_name handler_name).map fun handler =>
        Edit.DropHttpHandler
          { «namespace» := nsA.name, name := handler.name,
            body := "", policy := "" })
      (setDiff (mapKeys nsA.http_handlers) (mapKeys nsB.http_handlers)) =
      some ((setDiff (mapKeys nsA.http_handlers)
        (mapKeys nsB.http_handlers)).map
        (fun k => Edit.DropHttpHandler (mkStub nsA.name k))) := by
    apply mapMOpt_eq_map
    intro n hn
    have hinA := ((mem_setDiff _ _ n).mp hn).1
    rcases mapGet_isSome_of_mem_keys hinA with ⟨h, hh⟩
    have hhn := (hHA (n, h) (mapGet_mem hh)).1
    simp only [] at hhn
    rw [Namespace.get_http_handler_by_name, hh]
    simp [mkStub, hhn]
  have hhc : mapMOpt (fun handler_name =>
      (nsB.get_http_handler_by_name handler_name).map fun handler =>
        Edit.ReplaceHttpHandler
          { «namespace» := nsB.name, name := handler.name,
            body := "", policy := "" })
      (setDiff (mapKeys nsB.http_handlers) (mapKeys nsA.http_handlers)) =
      some ((setDiff (mapKeys nsB.http_handlers)
        (mapKeys nsA.http_handlers)).map
        (fun k => Edit.ReplaceHttpHandler (mkStub nsB.name k))) := by
    apply mapMOpt_eq_map
    intro n hn
    have hinB := ((mem_setDiff _ _ n).mp hn).1
    rcases mapGet_isSome_of_mem_keys hinB with ⟨h, hh⟩
    have hhn := (hHB (n, h) (mapGet_mem hh)).1
    simp only [] at hhn
    rw [Namespace.get_http_handler_by_name, hh]
    simp [mkStub, hhn]
  rw [Diff.diff_namespace, if_neg (by simp [hname])]
  rw [dedupF_eq_self huA, dedupF_eq_self huB]
  rw [hnamesA, hnamesB, dedupF_eq_self hkHA, dedupF_eq_self hkHB]
  simp only []
  rw [hflat, hhd, hhc]
  simp only [nsBlockEdits]
  rw [filterMap_map_comp _ (fun u => nsA.get_table_by_uuid u) Edit.DropTable,
    filterMap_map_comp _ (fun u => nsB.get_table_by_uuid u) Edit.CreateTable]
  simp

theorem newCond_shared (nsB : Namespace) (h : NewNamespaceCond nsB) :
    SharedNamespaceCond (emptyNamespace nsB.name) nsB := by
  obtain ⟨hh, hp, hz⟩ := h
  refine ⟨?_, ?_, ?_, ?_, ?_, ?_, ?_⟩
  · intro tA hA
    simp [emptyNamespace, mapValues] at hA
  · intro pA hA
    simp [emptyNamespace] at hA
  · intro p hp' _
    exact hh p hp'
  · intro p hp'
    simp [emptyNamespace] at hp'
  · intro p hp'
    rw [hp] at hp'
    simp at hp'
  · intro p hp'
    simp [emptyNamespace] at hp'
  · intro p hp'
    rw [hz] at hp'
    simp at hp'

theorem roundtrip_go (b : Catalog) (g : String → Option (List Edit)) :
    ∀ names : List String, names.Nodup → ∀ c : Catalog,
    (∀ n ∈ names,
      (∃ nsA nsB, mapGet c.namespaces n = some nsA ∧
        mapGet b.namespaces n = some nsB ∧
        g n = some (nsBlockEdits nsA nsB) ∧
        (∀ e ∈ nsBlockEdits nsA nsB, editNs e = some n) ∧
        Namespace.equiv
          ((nsBlockEdits nsA nsB).foldl (fun x e => nsStep e x) nsA) nsB) ∨
      (∃ nsB, mapGet c.namespaces n = none ∧
        mapGet b.namespaces n = some nsB ∧
        g n = some (Edit.CreateNamespace n ::
          nsBlockEdits (emptyNamespace n) nsB) ∧
        (∀ e ∈ nsBlockEdits (emptyNamespace n) nsB, editNs e = some n) ∧
        Namespace.equiv
          ((nsBlockEdits (emptyNamespace n) nsB).foldl
            (fun x e => nsStep e x) (emptyNamespace n)) nsB)) →
    (∀ k, k ∉ names →
      optRel Namespace.equiv (mapGet c.namespaces k) (mapGet b.namespaces k)) →
    ∃ bs c', mapMOpt g names = some bs ∧
      Catalog.applyAll c bs.flatten = some c' ∧ Catalog.equiv c' b := by
  intro names
  induction names with
  | nil =>
    intro _ c _ hout
    exact ⟨[], c, rfl, rfl, fun k => hout k (by simp)⟩
  | cons n rest ih =>
    intro hnd c hblk hout
    rw [List.nodup_cons] at hnd
    rcases hblk n (List.mem_cons_self n rest) with
      ⟨nsA, nsB, hcA, hbB, hgn, htgt, hequiv⟩ |
      ⟨nsB, hcA, hbB, hgn, htgt, hequiv⟩
    · have happblk := applyAll_block (nsBlockEdits nsA nsB) c n nsA htgt hcA
      have hmg : ∀ m ∈ rest,
          mapGet (mapInsert c.namespaces n
            ((nsBlockEdits nsA nsB).foldl (fun x e => nsStep e x) nsA)) m =
          mapGet c.namespaces m :=
        fun m hm => mapGet_insert_ne _ n m _ (fun e => hnd.1 (e ▸ hm))
      obtain ⟨bs', c', hmo, happ, hceq⟩ := ih hnd.2
        { namespaces := mapInsert c.namespaces n
            ((nsBlockEdits nsA nsB).foldl (fun x e => nsStep e x) nsA) }
        (by
          intro m hm
          rcases hblk m (List.mem_cons_of_mem n hm) with
            ⟨mA, mB, h1, h2, h3, h4, h5⟩ | ⟨mB, h1, h2, h3, h4, h5⟩
          · exact Or.inl ⟨mA, mB, by rw [hmg m hm]; exact h1, h2, h3, h4, h5⟩
          · exact Or.inr ⟨mB, by rw [hmg m hm]; exact h1, h2, h3, h4, h5⟩)
        (by
          intro k hk
          by_cases hkn : k = n
          · subst hkn
            simp only [mapGet_insert_self]
            rw [hbB]
            exact hequiv
          · have hkr : k ∉ n :: rest := by
              simp [hkn, hk]
            simp only [mapGet_insert_ne _ n k _ hkn]
            exact hout k hkr)
      refine ⟨nsBlockEdits nsA nsB :: bs', c', ?_, ?_, hceq⟩
      · rw [mapMOpt, hgn, hmo]
        rfl
      · rw [List.flatten_cons, applyAll_append, happblk]
        exact happ
    · have happblk := applyAll_block (nsBlockEdits (emptyNamespace n) nsB)
        { namespaces := mapInsert c.namespaces n (emptyNamespace n) }
        n (emptyNamespace n) htgt (mapGet_insert_self _ _ _)
      rw [mapInsert_mapInsert] at happblk
      have hmg : ∀ m ∈ rest,
          mapGet (mapInsert c.namespaces n
            ((nsBlockEdits (emptyNamespace n) nsB).foldl
              (fun x e => nsStep e x) (emptyNamespace n))) m =
          mapGet c.namespaces m :=
        fun m hm => mapGet_insert_ne _ n m _ (fun e => hnd.1 (e ▸ hm))
      obtain ⟨bs', c', hmo, happ, hceq⟩ := ih hnd.2
        { namespaces := mapInsert c.namespaces n
            ((nsBlockEdits (emptyNamespace n) nsB).foldl
              (fun x e => nsStep e x) (emptyNamespace n)) }
        (by
          intro m hm
          rcases hblk m (List.mem_cons_of_mem n hm) with
            ⟨mA, mB, h1, h2, h3, h4, h5⟩ | ⟨mB, h1, h2, h3, h4, h5⟩
          · exact Or.inl ⟨mA, mB, by rw [hmg m hm]; exact h1, h2, h3, h4, h5⟩
          · exact Or.inr ⟨mB, by rw [hmg m hm]; exact h1, h2, h3, h4, h5⟩)
        (by
          intro k hk
          by_cases hkn : k = n
          · subst hkn
            simp only [mapGet_insert_self]
            rw [hbB]
            exact hequiv
          · have hkr : k ∉ n :: rest := by
              simp [hkn, hk]
            simp only [mapGet_insert_ne _ n k _ hkn]
            exact hout k hkr)
      refine ⟨(Edit.CreateNamespace n ::
        nsBlockEdits (emptyNamespace n) nsB) :: bs', c', ?_, ?_, hceq⟩
      · rw [mapMOpt, hgn, hmo]
        rfl
      · rw [List.flatten_cons, List.cons_append, Catalog.applyAll]
        rw [show c.apply (Edit.CreateNamespace n) =
          some { namespaces := mapInsert c.namespaces n (emptyNamespace n) }
          from rfl]
        simp only []
        rw [applyAll_append, happblk]
        exact happ

/-- C1 (corrected): under `RoundtripCond` — both catalogs well-formed, no namespace dropped, tables sharing a uuid identical, handlers sharing a name identical, new handlers empty-bodied with empty policy, new namespaces with no policies, and policy maps equal on shared namespaces — `diff a b` succeeds and applying its edits to `a` succeeds and yields a catalog structurally equal to `b`.  Without the restriction the round trip fails (`C1_roundtrip_counterexample`). -/
theorem C1_roundtrip_amended (a b : Catalog) (h : RoundtripCond a b) :
    ∃ es c', Diff.diff a b = some es ∧ Catalog.applyAll a es = some c' ∧
      Catalog.equiv c' b := by
  obtain ⟨⟨hkA, hA⟩, ⟨hkB, hB⟩, hdrop, hsh, hnew⟩ := h
  have hnA : (mapValues a.namespaces).map (·.name) = mapKeys a.namespaces :=
    values_names_eq_keys _ (fun p hp => (hA p hp).1)
  have hnB : (mapValues b.namespaces).map (·.name) = mapKeys b.namespaces :=
    values_names_eq_keys _ (fun p hp => (hB p hp).1)
  have hblocks : ∀ n ∈ setUnion (mapKeys a.namespaces) (mapKeys b.namespaces),
      (∃ nsA nsB, mapGet a.namespaces n = some nsA ∧
        mapGet b.namespaces n = some nsB ∧
        Diff.diff_ns_entry a b n = some (nsBlockEdits nsA nsB) ∧
        (∀ e ∈ nsBlockEdits nsA nsB, editNs e = some n) ∧
        Namespace.equiv
          ((nsBlockEdits nsA nsB).foldl (fun x e => nsStep e x) nsA) nsB) ∨
      (∃ nsB, mapGet a.namespaces n = none ∧
        mapGet b.namespaces n = some nsB ∧
        Diff.diff_ns_entry a b n = some (Edit.CreateNamespace n ::
          nsBlockEdits (emptyNamespace n) nsB) ∧
        (∀ e ∈ nsBlockEdits (emptyNamespace n) nsB, editNs e = some n) ∧
        Namespace.equiv
          ((nsBlockEdits (emptyNamespace n) nsB).foldl
            (fun x e => nsStep e x) (emptyNamespace n)) nsB) := by
    intro n hn
    cases hga : mapGet a.namespaces n with
    | some nsA =>
      have hmemA := mapGet_mem hga
      have hAn := hA (n, nsA) hmemA
      have hbne := hdrop (n, nsA) hmemA
      simp only [] at hAn hbne
      cases hgb : mapGet b.namespaces n with
      | none => exact absurd hgb hbne
      | some nsB =>
        have hmemB := mapGet_mem hgb
        have hBn := hB (n, nsB) hmemB
        simp only [] at hBn
        have hnm : nsA.name = nsB.name := hAn.1.trans hBn.1.symm
        have hcond := hsh (n, nsA) hmemA (n, nsB) hmemB rfl
        refine Or.inl ⟨nsA, nsB, rfl, rfl, ?_, ?_, ?_⟩
        · rw [Diff.diff_ns_entry, hga, hgb]
          simp only []
          exact nsBlock_diff nsA nsB hAn.2 hBn.2 hnm hcond
        · intro e he
          have h5 := nsBlock_targets nsA nsB
            (fun p hp => ((hAn.2.2.1 p hp).2.1))
            (fun p hp => ((hBn.2.2.1 p hp).2.1)) hnm e he
          rw [hAn.1] at h5
          exact h5
        · exact nsBlock_equiv nsA nsB hAn.2 hBn.2 hnm hcond
    | none =>
      have hnb : n ∈ mapKeys b.namespaces := by
        rcases (mem_setUnion _ _ n).mp hn with h' | h'
        · exact absurd ((mapGet_eq_none_iff _ _).mp hga) (not_not_intro h')
        · exact h'
      rcases mapGet_isSome_of_mem_keys hnb with ⟨nsB, hgb⟩
      have hmemB := mapGet_mem hgb
      have hBn := hB (n, nsB) hmemB
      simp only [] at hBn
      have hcond := newCond_shared nsB (hnew (n, nsB) hmemB hga)
      refine Or.inr ⟨nsB, rfl, hgb, ?_, ?_, ?_⟩
      · rw [Diff.diff_ns_entry, hga, hgb]
        simp only []
        rw [hBn.1] at hcond ⊢
        rw [nsBlock_diff (emptyNamespace n) nsB (emptyNamespace_WF n)
          hBn.2 (by simp [emptyNamespace, hBn.1]) hcond]
        rfl
      · intro e he
        have h5 := nsBlock_targets (emptyNamespace n) nsB
          (fun p hp => absurd hp (by simp [emptyNamespace]))
          (fun p hp => ((hBn.2.2.1 p hp).2.1))
          (by simp [emptyNamespace, hBn.1]) e he
        simpa [emptyNamespace] using h5
      · exact nsBlock_equiv (emptyNamespace n) nsB (emptyNamespace_WF n)
          hBn.2 (by simp [emptyNamespace, hBn.1]) (by rw [hBn.1] at hcond; exact hcond)
  have hout : ∀ k,
      k ∉ setUnion (mapKeys a.namespaces) (mapKeys b.namespaces) →
      optRel Namespace.equiv (mapGet a.namespaces k) (mapGet b.namespaces k) := by
    intro k hk
    have hka : k ∉ mapKeys a.namespaces :=
      fun h' => hk ((mem_setUnion _ _ k).mpr (Or.inl h'))
    have hkb : k ∉ mapKeys b.namespaces :=
      fun h' => hk ((mem_setUnion _ _ k).mpr (Or.inr h'))
    rw [(mapGet_eq_none_iff _ _).mpr hka, (mapGet_eq_none_iff _ _).mpr hkb]
    exact trivial
  obtain ⟨bs, c', hmo, happ, hceq⟩ := roundtrip_go b (Diff.diff_ns_entry a b)
    (setUnion (mapKeys a.namespaces) (mapKeys b.namespaces))
    (setUnion_nodup _ _) a hblocks hout
  refine ⟨bs.flatten, c', ?_, happ, hceq⟩
  rw [Diff.diff]
  rw [hnA, hnB]
  rw [hmo]
  rfl

/-- Witness for the amended C1: a concrete catalog pair satisfying `RoundtripCond` (kept, dropped and created tables; kept and new handlers; a brand-new namespace) on which the round trip is exercised. -/
theorem C1_roundtrip_amended_witness :
    RoundtripCond c1rtA c1rtB ∧
    (∃ es c', Diff.diff c1rtA c1rtB = some es ∧
      Catalog.applyAll c1rtA es = some c' ∧ Catalog.equiv c' c1rtB) :=
  ⟨by decide, C1_roundtrip_amended c1rtA c1rtB (by decide)⟩

end Conductor
